import Mathlib

set_option maxHeartbeats 1000000

/-!
Verification development for a Rust ray tracer over axis-aligned boxes:
a bounding-volume hierarchy (BVH) for nearest-hit queries, a recursive
shading function with shadows, reflection and refraction, and a row-banded
parallel render scheduler.

Modelling conventions.  Scalars that the program stores in scene data (box
bounds, material constants, light data) are exact rationals.  Scalars
produced at ray time (slab parameters, hit distances, colors) live in `Fp`,
the rationals extended with the two IEEE-754 infinities and NaN, so that
the division by zero arising in inverse ray directions follows the same
signed-infinity arithmetic as the `f32` code; `f32` rounding itself is not
modelled, every finite value is exact.  External capabilities consumed by
the renderer (square root, powf, trigonometry, texture sampling) are passed
in as a record of functions.  Fallible operations (slice indexing inside
the BVH builder) are modelled in `Option`, `none` standing for a panic.
-/

/-- Scalar model for `f32` ray-time values: exact rationals together with
the two IEEE-754 infinities and NaN. -/
inductive Fp where
  | nan : Fp
  | ninf : Fp
  | pinf : Fp
  | fin : ℚ → Fp
deriving DecidableEq

/-- Embedding of an exact rational as a finite scalar. -/
def fq (x : ℚ) : Fp := Fp.fin x

namespace Fp

/-- IEEE-754 negation. -/
def neg : Fp → Fp
  | nan => nan
  | ninf => pinf
  | pinf => ninf
  | fin q => fin (-q)

/-- IEEE-754 addition: NaN propagates, opposite infinities give NaN. -/
def add : Fp → Fp → Fp
  | nan, _ => nan
  | _, nan => nan
  | pinf, ninf => nan
  | ninf, pinf => nan
  | pinf, _ => pinf
  | _, pinf => pinf
  | ninf, _ => ninf
  | _, ninf => ninf
  | fin a, fin b => fin (a + b)

/-- IEEE-754 multiplication: NaN propagates, zero times infinity is NaN,
otherwise infinities follow the sign rule. -/
def mul : Fp → Fp → Fp
  | nan, _ => nan
  | _, nan => nan
  | pinf, pinf => pinf
  | pinf, ninf => ninf
  | ninf, pinf => ninf
  | ninf, ninf => pinf
  | pinf, fin b => if b < 0 then ninf else if b = 0 then nan else pinf
  | fin a, pinf => if a < 0 then ninf else if a = 0 then nan else pinf
  | ninf, fin b => if b < 0 then pinf else if b = 0 then nan else ninf
  | fin a, ninf => if a < 0 then pinf else if a = 0 then nan else ninf
  | fin a, fin b => fin (a * b)

/-- IEEE-754 division: finite over zero gives a signed infinity (NaN for
zero over zero), finite over infinity gives zero, infinity over infinity
gives NaN.  The single rational zero plays the role of `+0.0`. -/
def div : Fp → Fp → Fp
  | nan, _ => nan
  | _, nan => nan
  | pinf, pinf => nan
  | pinf, ninf => nan
  | ninf, pinf => nan
  | ninf, ninf => nan
  | pinf, fin b => if b < 0 then ninf else pinf
  | ninf, fin b => if b < 0 then pinf else ninf
  | fin _, pinf => fin 0
  | fin _, ninf => fin 0
  | fin a, fin b =>
      if b = 0 then (if a = 0 then nan else if a < 0 then ninf else pinf)
      else fin (a / b)

/-- IEEE-754 strict comparison: any comparison with NaN is false. -/
def lt : Fp → Fp → Bool
  | nan, _ => false
  | _, nan => false
  | ninf, ninf => false
  | ninf, _ => true
  | _, ninf => false
  | pinf, _ => false
  | _, pinf => true
  | fin a, fin b => decide (a < b)

/-- IEEE-754 non-strict comparison: any comparison with NaN is false. -/
def le : Fp → Fp → Bool
  | nan, _ => false
  | _, nan => false
  | ninf, _ => true
  | _, ninf => false
  | _, pinf => true
  | pinf, _ => false
  | fin a, fin b => decide (a ≤ b)

/-- Model of Rust `f32::max`, which ignores NaN arguments. -/
def maxF (a b : Fp) : Fp :=
  match a, b with
  | nan, b => b
  | a, nan => a
  | a, b => if lt a b then b else a

/-- Model of Rust `f32::min`, which ignores NaN arguments. -/
def minF (a b : Fp) : Fp :=
  match a, b with
  | nan, b => b
  | a, nan => a
  | a, b => if lt b a then b else a

/-- Model of Rust `f32::abs`. -/
def absF : Fp → Fp
  | nan => nan
  | ninf => pinf
  | pinf => pinf
  | fin q => fin |q|

instance : Neg Fp := ⟨neg⟩
instance : Add Fp := ⟨add⟩
instance : Mul Fp := ⟨mul⟩
instance : Div Fp := ⟨div⟩
instance : Sub Fp := ⟨fun a b => add a (neg b)⟩

@[simp] theorem sub_eq (a b : Fp) : a - b = a + (-b) := rfl

@[simp] theorem neg_fin (a : ℚ) : -(fin a) = fin (-a) := rfl

@[simp] theorem neg_nan : -nan = nan := rfl

@[simp] theorem neg_pinf : -pinf = ninf := rfl

@[simp] theorem neg_ninf : -ninf = pinf := rfl

@[simp] theorem add_fin_fin (a b : ℚ) : fin a + fin b = fin (a + b) := rfl

@[simp] theorem add_nan_left (a : Fp) : nan + a = nan := by cases a <;> rfl

@[simp] theorem add_fin_nan (a : ℚ) : fin a + nan = nan := rfl

@[simp] theorem add_pinf_nan : pinf + nan = nan := rfl

@[simp] theorem add_ninf_nan : ninf + nan = nan := rfl

@[simp] theorem add_pinf_pinf : pinf + pinf = pinf := rfl

@[simp] theorem add_pinf_ninf : pinf + ninf = nan := rfl

@[simp] theorem add_ninf_pinf : ninf + pinf = nan := rfl

@[simp] theorem add_ninf_ninf : ninf + ninf = ninf := rfl

@[simp] theorem add_pinf_fin (a : ℚ) : pinf + fin a = pinf := rfl

@[simp] theorem add_fin_pinf (a : ℚ) : fin a + pinf = pinf := rfl

@[simp] theorem add_ninf_fin (a : ℚ) : ninf + fin a = ninf := rfl

@[simp] theorem add_fin_ninf (a : ℚ) : fin a + ninf = ninf := rfl

@[simp] theorem mul_fin_fin (a b : ℚ) : fin a * fin b = fin (a * b) := rfl

@[simp] theorem mul_nan_left (a : Fp) : nan * a = nan := by cases a <;> rfl

@[simp] theorem mul_fin_nan (a : ℚ) : fin a * nan = nan := rfl

@[simp] theorem mul_pinf_nan : pinf * nan = nan := rfl

@[simp] theorem mul_ninf_nan : ninf * nan = nan := rfl

@[simp] theorem mul_pinf_pinf : pinf * pinf = pinf := rfl

@[simp] theorem mul_pinf_ninf : pinf * ninf = ninf := rfl

@[simp] theorem mul_ninf_pinf : ninf * pinf = ninf := rfl

@[simp] theorem mul_ninf_ninf : ninf * ninf = pinf := rfl

@[simp] theorem mul_pinf_fin (b : ℚ) :
    pinf * fin b = if b < 0 then ninf else if b = 0 then nan else pinf := rfl

@[simp] theorem mul_fin_pinf (a : ℚ) :
    fin a * pinf = if a < 0 then ninf else if a = 0 then nan else pinf := rfl

@[simp] theorem mul_ninf_fin (b : ℚ) :
    ninf * fin b = if b < 0 then pinf else if b = 0 then nan else ninf := rfl

@[simp] theorem mul_fin_ninf (a : ℚ) :
    fin a * ninf = if a < 0 then pinf else if a = 0 then nan else ninf := rfl

@[simp] theorem div_fin_fin (a b : ℚ) :
    fin a / fin b =
      if b = 0 then (if a = 0 then nan else if a < 0 then ninf else pinf)
      else fin (a / b) := rfl

@[simp] theorem div_nan_left (a : Fp) : nan / a = nan := by cases a <;> rfl

@[simp] theorem div_fin_nan (a : ℚ) : fin a / nan = nan := rfl

@[simp] theorem div_pinf_nan : pinf / nan = nan := rfl

@[simp] theorem div_ninf_nan : ninf / nan = nan := rfl

@[simp] theorem div_pinf_pinf : pinf / pinf = nan := rfl

@[simp] theorem div_pinf_ninf : pinf / ninf = nan := rfl

@[simp] theorem div_ninf_pinf : ninf / pinf = nan := rfl

@[simp] theorem div_ninf_ninf : ninf / ninf = nan := rfl

@[simp] theorem div_pinf_fin (b : ℚ) : pinf / fin b = if b < 0 then ninf else pinf := rfl

@[simp] theorem div_ninf_fin (b : ℚ) : ninf / fin b = if b < 0 then pinf else ninf := rfl

@[simp] theorem div_fin_pinf (a : ℚ) : fin a / pinf = fin 0 := rfl

@[simp] theorem div_fin_ninf (a : ℚ) : fin a / ninf = fin 0 := rfl

@[simp] theorem lt_fin_fin (a b : ℚ) : lt (fin a) (fin b) = decide (a < b) := rfl

@[simp] theorem lt_nan_left (a : Fp) : lt nan a = false := by cases a <;> rfl

@[simp] theorem lt_fin_nan (a : ℚ) : lt (fin a) nan = false := rfl

@[simp] theorem lt_pinf_nan : lt pinf nan = false := rfl

@[simp] theorem lt_ninf_nan : lt ninf nan = false := rfl

@[simp] theorem lt_ninf_ninf : lt ninf ninf = false := rfl

@[simp] theorem lt_ninf_pinf : lt ninf pinf = true := rfl

@[simp] theorem lt_ninf_fin (a : ℚ) : lt ninf (fin a) = true := rfl

@[simp] theorem lt_pinf_ninf : lt pinf ninf = false := rfl

@[simp] theorem lt_fin_ninf (a : ℚ) : lt (fin a) ninf = false := rfl

@[simp] theorem lt_pinf_pinf : lt pinf pinf = false := rfl

@[simp] theorem lt_pinf_fin (a : ℚ) : lt pinf (fin a) = false := rfl

@[simp] theorem lt_fin_pinf (a : ℚ) : lt (fin a) pinf = true := rfl

@[simp] theorem le_fin_fin (a b : ℚ) : le (fin a) (fin b) = decide (a ≤ b) := rfl

@[simp] theorem le_nan_left (a : Fp) : le nan a = false := by cases a <;> rfl

@[simp] theorem le_fin_nan (a : ℚ) : le (fin a) nan = false := rfl

@[simp] theorem le_pinf_nan : le pinf nan = false := rfl

@[simp] theorem le_ninf_nan : le ninf nan = false := rfl

@[simp] theorem le_ninf_ninf : le ninf ninf = true := rfl

@[simp] theorem le_ninf_pinf : le ninf pinf = true := rfl

@[simp] theorem le_ninf_fin (a : ℚ) : le ninf (fin a) = true := rfl

@[simp] theorem le_pinf_ninf : le pinf ninf = false := rfl

@[simp] theorem le_fin_ninf (a : ℚ) : le (fin a) ninf = false := rfl

@[simp] theorem le_pinf_pinf : le pinf pinf = true := rfl

@[simp] theorem le_pinf_fin (a : ℚ) : le pinf (fin a) = false := rfl

@[simp] theorem le_fin_pinf (a : ℚ) : le (fin a) pinf = true := rfl

@[simp] theorem absF_fin (a : ℚ) : absF (fin a) = fin |a| := rfl

@[simp] theorem absF_nan : absF nan = nan := rfl

@[simp] theorem absF_pinf : absF pinf = pinf := rfl

@[simp] theorem absF_ninf : absF ninf = pinf := rfl

@[simp] theorem maxF_fin_fin (a b : ℚ) :
    maxF (fin a) (fin b) = if a < b then fin b else fin a := by
  simp [maxF]

@[simp] theorem maxF_nan_left (a : Fp) : maxF nan a = a := by cases a <;> rfl

@[simp] theorem maxF_fin_nan (a : ℚ) : maxF (fin a) nan = fin a := rfl

@[simp] theorem maxF_pinf_nan : maxF pinf nan = pinf := rfl

@[simp] theorem maxF_ninf_nan : maxF ninf nan = ninf := rfl

@[simp] theorem maxF_pinf_fin (a : ℚ) : maxF pinf (fin a) = pinf := by simp [maxF]

@[simp] theorem maxF_fin_pinf (a : ℚ) : maxF (fin a) pinf = pinf := by simp [maxF]

@[simp] theorem maxF_ninf_fin (a : ℚ) : maxF ninf (fin a) = fin a := by simp [maxF]

@[simp] theorem maxF_fin_ninf (a : ℚ) : maxF (fin a) ninf = fin a := by simp [maxF]

@[simp] theorem minF_fin_fin (a b : ℚ) :
    minF (fin a) (fin b) = if b < a then fin b else fin a := by
  simp [minF]

@[simp] theorem minF_nan_left (a : Fp) : minF nan a = a := by cases a <;> rfl

@[simp] theorem minF_fin_nan (a : ℚ) : minF (fin a) nan = fin a := rfl

@[simp] theorem minF_pinf_fin (a : ℚ) : minF pinf (fin a) = fin a := by simp [minF]

@[simp] theorem minF_fin_pinf (a : ℚ) : minF (fin a) pinf = fin a := by simp [minF]

@[simp] theorem minF_ninf_fin (a : ℚ) : minF ninf (fin a) = ninf := by simp [minF]

@[simp] theorem minF_fin_ninf (a : ℚ) : minF (fin a) ninf = ninf := by simp [minF]

end Fp

@[simp] theorem fq_eq (x : ℚ) : fq x = Fp.fin x := rfl

/-- Vector of ray-time scalars, the model of raylib `Vector3` where the
components arise from ray arithmetic. -/
structure Vec3 where
  x : Fp
  y : Fp
  z : Fp
deriving DecidableEq

/-- Vector of exact rationals, the model of raylib `Vector3` where the
components are scene data fixed at construction time. -/
structure V3 where
  x : ℚ
  y : ℚ
  z : ℚ
deriving DecidableEq

/-- Embedding of a scene-data vector into ray-time scalars. -/
def V3.toF (v : V3) : Vec3 := ⟨fq v.x, fq v.y, fq v.z⟩

namespace Vec3

/-- Model of `Vector3::zero()`. -/
def zero : Vec3 := ⟨fq 0, fq 0, fq 0⟩

/-- Componentwise vector addition. -/
def add (a b : Vec3) : Vec3 := ⟨a.x + b.x, a.y + b.y, a.z + b.z⟩

/-- Componentwise vector subtraction. -/
def sub (a b : Vec3) : Vec3 := ⟨a.x - b.x, a.y - b.y, a.z - b.z⟩

/-- Componentwise vector negation. -/
def negV (a : Vec3) : Vec3 := ⟨-a.x, -a.y, -a.z⟩

/-- Model of raylib `Vector3 * f32` (scalar on the right). -/
def smul (v : Vec3) (s : Fp) : Vec3 := ⟨v.x * s, v.y * s, v.z * s⟩

/-- Model of raylib `Vector3 * Vector3` (componentwise product). -/
def mulV (a b : Vec3) : Vec3 := ⟨a.x * b.x, a.y * b.y, a.z * b.z⟩

/-- Model of `Vector3::dot`. -/
def dot (a b : Vec3) : Fp := a.x * b.x + a.y * b.y + a.z * b.z

end Vec3

instance : Add Vec3 := ⟨Vec3.add⟩
instance : Sub Vec3 := ⟨Vec3.sub⟩
instance : Neg Vec3 := ⟨Vec3.negV⟩
instance : HMul Vec3 Fp Vec3 := ⟨Vec3.smul⟩
instance : HMul Vec3 Vec3 Vec3 := ⟨Vec3.mulV⟩

@[simp] theorem Vec3.add_mk (a b c d e f : Fp) :
    (Vec3.mk a b c) + (Vec3.mk d e f) = ⟨a + d, b + e, c + f⟩ := rfl

@[simp] theorem Vec3.sub_mk (a b c d e f : Fp) :
    (Vec3.mk a b c) - (Vec3.mk d e f) = ⟨a - d, b - e, c - f⟩ := rfl

@[simp] theorem Vec3.neg_mk (a b c : Fp) : -(Vec3.mk a b c) = ⟨-a, -b, -c⟩ := rfl

@[simp] theorem Vec3.smul_mk (a b c s : Fp) :
    (Vec3.mk a b c) * s = ⟨a * s, b * s, c * s⟩ := rfl

@[simp] theorem Vec3.mulV_mk (a b c d e f : Fp) :
    (Vec3.mk a b c) * (Vec3.mk d e f) = ⟨a * d, b * e, c * f⟩ := rfl

@[simp] theorem Vec3.dot_mk (a b c d e f : Fp) :
    Vec3.dot (Vec3.mk a b c) (Vec3.mk d e f) = a * d + b * e + c * f := rfl

@[simp] theorem Vec3.zero_eq : Vec3.zero = ⟨Fp.fin 0, Fp.fin 0, Fp.fin 0⟩ := rfl

@[simp] theorem V3.toF_mk (a b c : ℚ) :
    V3.toF ⟨a, b, c⟩ = ⟨Fp.fin a, Fp.fin b, Fp.fin c⟩ := rfl

/-- External capabilities the renderer consumes: `f32` transcendental
functions and the read-only texture-sampling interface of the texture
manager (an excluded collaborator per the specification). -/
structure Caps where
  sqrt : Fp → Fp
  powf : Fp → Fp → Fp
  atan2 : Fp → Fp → Fp
  asin : Fp → Fp
  hasTexture : String → Bool
  texWidth : String → ℕ
  texHeight : String → ℕ
  getPixelColor : String → ℕ → ℕ → V3

/-- Model of raylib `Vector3::length`, via the square-root capability. -/
def Vec3.lengthF (caps : Caps) (v : Vec3) : Fp := caps.sqrt (Vec3.dot v v)

/-- Model of raylib `Vector3::normalized`: the length is replaced by `1.0`
when it is exactly zero (raymath guard), then each component is scaled by
its reciprocal. -/
def Vec3.normalized (caps : Caps) (v : Vec3) : Vec3 :=
  let len := Vec3.lengthF caps v
  let len := if len = fq 0 then fq 1 else len
  let ilen := fq 1 / len
  ⟨v.x * ilen, v.y * ilen, v.z * ilen⟩

/-- Model of `material.rs` `Material`.  The two-element `albedo` array is
modelled by the fields `albedo0` and `albedo1`. -/
structure Material where
  diffuse : V3
  albedo0 : ℚ
  albedo1 : ℚ
  specular : ℚ
  reflectivity : ℚ
  transparency : ℚ
  refractive_index : ℚ
  texture : Option String
  normal_map_id : Option String
  emission : V3
  emission_strength : ℚ
deriving DecidableEq

/-- Model of `ray_intersect.rs` `Intersect`, the per-hit payload. -/
structure Intersect where
  material : Material
  distance : Fp
  is_intersecting : Bool
  normal : Vec3
  point : Vec3
  u : Fp
  v : Fp
deriving DecidableEq

/-- Model of `Intersect::new`: a populated hit. -/
def Intersect.new (material : Material) (distance : Fp) (normal point : Vec3)
    (u v : Fp) : Intersect :=
  ⟨material, distance, true, normal, point, u, v⟩

/-- Model of `Intersect::empty`: the non-hit record.  The source struct
literal omits the `emission` fields of `Material` (they are modelled here
as zero, the only completion under which the file compiles). -/
def Intersect.empty : Intersect :=
  ⟨⟨⟨0, 0, 0⟩, 0, 0, 0, 0, 0, 0, none, none, ⟨0, 0, 0⟩, 0⟩,
    fq 0, false, Vec3.zero, Vec3.zero, fq 0, fq 0⟩

/-- Model of `light.rs` `Light`. -/
structure Light where
  position : V3
  color : V3
  intensity : ℚ
deriving DecidableEq

/-- Model of `cube.rs` `Cube`: an axis-aligned box with a material. -/
structure Cube where
  min_bounds : V3
  max_bounds : V3
  material : Material
deriving DecidableEq

/-- Face normal determination of `Cube::ray_intersect`: the hit point is
compared against each bound in order, the first face within `1e-4` fixes
the normal, and no match leaves the zero vector. -/
def Cube.faceNormal (self : Cube) (point : Vec3) : Vec3 :=
  let eps := fq (1/10000)
  if Fp.lt (Fp.absF (point.x - fq self.min_bounds.x)) eps then ⟨fq (-1), fq 0, fq 0⟩
  else if Fp.lt (Fp.absF (point.x - fq self.max_bounds.x)) eps then ⟨fq 1, fq 0, fq 0⟩
  else if Fp.lt (Fp.absF (point.y - fq self.min_bounds.y)) eps then ⟨fq 0, fq (-1), fq 0⟩
  else if Fp.lt (Fp.absF (point.y - fq self.max_bounds.y)) eps then ⟨fq 0, fq 1, fq 0⟩
  else if Fp.lt (Fp.absF (point.z - fq self.min_bounds.z)) eps then ⟨fq 0, fq 0, fq (-1)⟩
  else if Fp.lt (Fp.absF (point.z - fq self.max_bounds.z)) eps then ⟨fq 0, fq 0, fq 1⟩
  else Vec3.zero

/-- Model of `Cube::get_uv`: UV coordinates from the hit point and the
face normal. -/
def Cube.get_uv (self : Cube) (point normal : Vec3) : Fp × Fp :=
  let size : V3 := ⟨self.max_bounds.x - self.min_bounds.x,
    self.max_bounds.y - self.min_bounds.y, self.max_bounds.z - self.min_bounds.z⟩
  if Fp.lt (fq (1/2)) (Fp.absF normal.x) then
    ((point.z - fq self.min_bounds.z) / fq size.z,
     (point.y - fq self.min_bounds.y) / fq size.y)
  else if Fp.lt (fq (1/2)) (Fp.absF normal.y) then
    ((point.x - fq self.min_bounds.x) / fq size.x,
     (point.z - fq self.min_bounds.z) / fq size.z)
  else
    ((point.x - fq self.min_bounds.x) / fq size.x,
     (point.y - fq self.min_bounds.y) / fq size.y)

/-- Slab phase of `Cube::ray_intersect`: the two early `return
Intersect::empty()` rejections are the `none` branches, and a surviving
run yields the final `(tmin, tmax)` pair.  Rust `a > b` is translated as
`Fp.lt b a` (which agrees with IEEE-754 `>`), and each `mem::swap` is
encoded as two selections on the same condition. -/
def Cube.slabParams (self : Cube) (ray_origin ray_direction : Vec3) : Option (Fp × Fp) :=
  let inv_dir : Vec3 :=
    ⟨fq 1 / ray_direction.x, fq 1 / ray_direction.y, fq 1 / ray_direction.z⟩
  let txmin := (fq self.min_bounds.x - ray_origin.x) * inv_dir.x
  let txmax := (fq self.max_bounds.x - ray_origin.x) * inv_dir.x
  let tmin := if Fp.lt txmax txmin then txmax else txmin
  let tmax := if Fp.lt txmax txmin then txmin else txmax
  let symin := (fq self.min_bounds.y - ray_origin.y) * inv_dir.y
  let symax := (fq self.max_bounds.y - ray_origin.y) * inv_dir.y
  let tymin := if Fp.lt symax symin then symax else symin
  let tymax := if Fp.lt symax symin then symin else symax
  if Fp.lt tymax tmin || Fp.lt tmax tymin then none
  else
    let tmin := if Fp.lt tmin tymin then tymin else tmin
    let tmax := if Fp.lt tymax tmax then tymax else tmax
    let szmin := (fq self.min_bounds.z - ray_origin.z) * inv_dir.z
    let szmax := (fq self.max_bounds.z - ray_origin.z) * inv_dir.z
    let tzmin := if Fp.lt szmax szmin then szmax else szmin
    let tzmax := if Fp.lt szmax szmin then szmin else szmax
    if Fp.lt tzmax tmin || Fp.lt tmax tzmin then none
    else
      let tmin := if Fp.lt tmin tzmin then tzmin else tmin
      let tmax := if Fp.lt tzmax tmax then tzmax else tmax
      some (tmin, tmax)

/-- Model of `Cube::ray_intersect`, the slab method: the slab phase above
followed by the distance selection, the self-intersection guard, and the
hit-payload construction. -/
def Cube.ray_intersect (self : Cube) (ray_origin ray_direction : Vec3) : Intersect :=
  match self.slabParams ray_origin ray_direction with
  | none => Intersect.empty
  | some (tmin, tmax) =>
    let distance := if Fp.lt (fq (1/1000)) tmin then tmin else tmax
    if Fp.lt distance (fq (1/1000)) then Intersect.empty
    else
      let point := ray_origin + ray_direction * distance
      let normal := self.faceNormal point
      let uv := self.get_uv point normal
      Intersect.new self.material distance normal point uv.1 uv.2

/-- Model of `bvh.rs` `AABB`. -/
structure AABB where
  min : V3
  max : V3
deriving DecidableEq

/-- Model of `AABB::from_cube`. -/
def AABB.from_cube (cube : Cube) : AABB := ⟨cube.min_bounds, cube.max_bounds⟩

/-- Model of `AABB::merge`: componentwise min of mins and max of maxes. -/
def AABB.merge (self other : AABB) : AABB :=
  ⟨⟨Min.min self.min.x other.min.x, Min.min self.min.y other.min.y,
    Min.min self.min.z other.min.z⟩,
   ⟨Max.max self.max.x other.max.x, Max.max self.max.y other.max.y,
    Max.max self.max.z other.max.z⟩⟩

/-- Model of `AABB::center`. -/
def AABB.center (self : AABB) : V3 :=
  ⟨(self.min.x + self.max.x) * (1/2), (self.min.y + self.max.y) * (1/2),
   (self.min.z + self.max.z) * (1/2)⟩

/-- Model of `AABB::intersect`, the boolean slab test against a
precomputed inverse direction; each `mem::swap` is encoded as two
selections on the same condition. -/
def AABB.intersect (self : AABB) (ray_origin inv_dir : Vec3) : Bool :=
  let sxmin := (fq self.min.x - ray_origin.x) * inv_dir.x
  let sxmax := (fq self.max.x - ray_origin.x) * inv_dir.x
  let tmin := if Fp.lt sxmax sxmin then sxmax else sxmin
  let tmax := if Fp.lt sxmax sxmin then sxmin else sxmax
  let symin := (fq self.min.y - ray_origin.y) * inv_dir.y
  let symax := (fq self.max.y - ray_origin.y) * inv_dir.y
  let tymin := if Fp.lt symax symin then symax else symin
  let tymax := if Fp.lt symax symin then symin else symax
  if Fp.lt tymax tmin || Fp.lt tmax tymin then false
  else
    let tmin := if Fp.lt tmin tymin then tymin else tmin
    let tmax := if Fp.lt tymax tmax then tymax else tmax
    let szmin := (fq self.min.z - ray_origin.z) * inv_dir.z
    let szmax := (fq self.max.z - ray_origin.z) * inv_dir.z
    let tzmin := if Fp.lt szmax szmin then szmax else szmin
    let tzmax := if Fp.lt szmax szmin then szmin else szmax
    if Fp.lt tzmax tmin || Fp.lt tmax tzmin then false
    else true

/-- Model of `Material::black`. -/
def Material.black : Material :=
  ⟨⟨0, 0, 0⟩, 0, 0, 0, 0, 0, 0, none, none, ⟨0, 0, 0⟩, 0⟩

/-- Placeholder cube backing the total `getD` list lookups; never reached
on the valid-index executions this development reasons about. -/
def defCube : Cube := ⟨⟨0, 0, 0⟩, ⟨0, 0, 0⟩, Material.black⟩

/-- Model of `bvh.rs` `BVHNode`: a leaf holds one primitive index, an
internal node owns two subtrees. -/
inductive BVHNode where
  | leaf : AABB → ℕ → BVHNode
  | internal : AABB → BVHNode → BVHNode → BVHNode
deriving DecidableEq

/-- Bounds stored at the root of a node. -/
def BVHNode.nodeBounds : BVHNode → AABB
  | .leaf b _ => b
  | .internal b _ _ => b

/-- Primitive indices referenced by the leaves of a tree, left to right. -/
def BVHNode.treeIndices : BVHNode → List ℕ
  | .leaf _ i => [i]
  | .internal _ l r => l.treeIndices ++ r.treeIndices

/-- Sort key of `BVHNode::build`: the center coordinate of a primitive's
bounding box along the chosen axis. -/
def centerAxis (cubes : List Cube) (axis : ℕ) (i : ℕ) : ℚ :=
  let c := (AABB.from_cube (cubes.getD i defCube)).center
  match axis with
  | 0 => c.x
  | 1 => c.y
  | _ => c.z

/-- Split-axis choice of `BVHNode::build`: the axis of largest extent of
the merged bounds (x on strict double win, else y over z, else z). -/
def chooseAxis (bounds : AABB) : ℕ :=
  let extentX := bounds.max.x - bounds.min.x
  let extentY := bounds.max.y - bounds.min.y
  let extentZ := bounds.max.z - bounds.min.z
  if extentX > extentY ∧ extentX > extentZ then 0
  else if extentY > extentZ then 1 else 2

/-- Stable ascending sort of an index slice by box center along an axis,
the model of the `sort_by` call in `BVHNode::build` (`List.insertionSort`
computes the same stable ordering as Rust's stable `sort_by`). -/
def sortIndices (cubes : List Cube) (axis : ℕ) (idxs : List ℕ) : List ℕ :=
  List.insertionSort (fun a b => centerAxis cubes axis a ≤ centerAxis cubes axis b) idxs

theorem sortIndices_perm (cubes : List Cube) (axis : ℕ) (idxs : List ℕ) :
    List.Perm (sortIndices cubes axis idxs) idxs :=
  List.perm_insertionSort _ idxs

theorem sortIndices_length (cubes : List Cube) (axis : ℕ) (idxs : List ℕ) :
    (sortIndices cubes axis idxs).length = idxs.length :=
  List.length_insertionSort _ idxs

/-- Model of `BVHNode::build`, recursive median split.  Slice indexing is
modelled in `Option` (`none` is the out-of-bounds panic). -/
def BVHNode.build (cubes : List Cube) (indices : List ℕ) : Option BVHNode :=
  match indices with
  | [] => none
  | [idx] => (cubes[idx]?).map fun c => BVHNode.leaf (AABB.from_cube c) idx
  | idx0 :: idx1 :: rest =>
    (cubes[idx0]?).bind fun c0 =>
    ((idx1 :: rest).foldlM
        (fun b i => (cubes[i]?).map fun c => b.merge (AABB.from_cube c))
        (AABB.from_cube c0)).bind fun bounds =>
    let axis := chooseAxis bounds
    let sorted := sortIndices cubes axis (idx0 :: idx1 :: rest)
    let mid := sorted.length / 2
    (BVHNode.build cubes (sorted.take mid)).bind fun left =>
    (BVHNode.build cubes (sorted.drop mid)).map fun right =>
    BVHNode.internal bounds left right
termination_by indices.length
decreasing_by
  · simp only [List.length_take, sortIndices_length, List.length_cons]
    omega
  · simp only [List.length_drop, sortIndices_length, List.length_cons]
    omega

/-- Model of `BVHNode::intersect`, the nearest-hit query.  The leaf's
slice lookup is modelled total via `getD`; every query in this development
is against a built tree, whose leaf indices are in range. -/
def BVHNode.intersect (self : BVHNode) (cubes : List Cube)
    (ray_origin ray_direction inv_dir : Vec3) : Intersect :=
  match self with
  | .leaf bounds object_idx =>
    if bounds.intersect ray_origin inv_dir then
      (cubes.getD object_idx defCube).ray_intersect ray_origin ray_direction
    else Intersect.empty
  | .internal bounds left right =>
    if !bounds.intersect ray_origin inv_dir then Intersect.empty
    else
      let left_hit := left.intersect cubes ray_origin ray_direction inv_dir
      let right_hit := right.intersect cubes ray_origin ray_direction inv_dir
      if left_hit.is_intersecting && right_hit.is_intersecting then
        if Fp.lt left_hit.distance right_hit.distance then left_hit else right_hit
      else if left_hit.is_intersecting then left_hit
      else right_hit

/-- Model of `snell.rs` `reflect`. -/
def reflect (incident normal : Vec3) : Vec3 :=
  incident - (normal * fq 2) * Vec3.dot incident normal

/-- Model of `snell.rs` `refract` (Snell's law).  The mutable
swap-and-flip of the Rust source is encoded by the `swapped` flag; the
square root comes from the capability record. -/
def refract (caps : Caps) (incident normal : Vec3) (refractive_index : ℚ) : Vec3 :=
  let cosi := Fp.minF (Fp.maxF (Vec3.dot incident normal) (fq (-1))) (fq 1)
  let swapped := Fp.lt (fq 0) cosi
  let etai : ℚ := if swapped then refractive_index else 1
  let etat : ℚ := if swapped then 1 else refractive_index
  let n := if swapped then -normal else normal
  let cosi := if swapped then cosi else -cosi
  let eta := fq etai / fq etat
  let k := fq 1 - eta * eta * (fq 1 - cosi * cosi)
  if Fp.lt k (fq 0) then Vec3.zero
  else incident * eta + n * (eta * cosi - caps.sqrt k)

/-- Discriminant `k = 1 - eta^2 * (1 - cosi^2)` as computed by `refract`,
restated for specification purposes (it never consults the square root). -/
def refractDiscriminant (incident normal : Vec3) (refractive_index : ℚ) : Fp :=
  let cosi := Fp.minF (Fp.maxF (Vec3.dot incident normal) (fq (-1))) (fq 1)
  let swapped := Fp.lt (fq 0) cosi
  let etai : ℚ := if swapped then refractive_index else 1
  let etat : ℚ := if swapped then 1 else refractive_index
  let cosi := if swapped then cosi else -cosi
  let eta := fq etai / fq etat
  fq 1 - eta * eta * (fq 1 - cosi * cosi)

/-- Model of the Rust `as u32` cast from `f32`: saturating, NaN to zero. -/
def Fp.toU32 : Fp → ℕ
  | .fin q => (Min.min ⌊q⌋ 4294967295).toNat
  | .pinf => 4294967295
  | _ => 0

/-- Model of the Rust `as u8` cast from `f32`: saturating, NaN to zero. -/
def Fp.toU8 : Fp → ℕ
  | .fin q => (Min.min ⌊q⌋ 255).toNat
  | .pinf => 255
  | _ => 0

/-- Model of Rust `f32::clamp` (two successive comparisons, NaN passes
through). -/
def Fp.clampF (a lo hi : Fp) : Fp :=
  let a := if Fp.lt a lo then lo else a
  if Fp.lt hi a then hi else a

/-- Exact rational value of the `f32` constant `std::f32::consts::PI`. -/
def piF32 : ℚ := 13176795 / 4194304

/-- Fallback sky gradient of `procedural_sky` (the tail of the function,
reached when no skybox texture is available). -/
def skyGradient (caps : Caps) (dir : Vec3) : Vec3 :=
  let d := Vec3.normalized caps dir
  let t := (d.y + fq 1) * fq (1/2)
  let dark_red : Vec3 := ⟨fq (2/10), fq (5/100), fq (5/100)⟩
  let crimson : Vec3 := ⟨fq (4/10), fq (8/100), fq (1/10)⟩
  let dark_orange : Vec3 := ⟨fq (3/10), fq (1/10), fq (5/100)⟩
  if Fp.lt t (fq (3/10)) then dark_red
  else if Fp.lt t (fq (6/10)) then
    let k := (t - fq (3/10)) / fq (3/10)
    dark_red * (fq 1 - k) + crimson * k
  else
    let k := (t - fq (6/10)) / fq (4/10)
    crimson * (fq 1 - k) + dark_orange * k

/-- Model of `main.rs` `procedural_sky`: equirectangular skybox lookup
when the texture is available, otherwise the procedural gradient. -/
def procedural_sky (caps : Caps) (dir : Vec3) (skybox_texture : Option String) : Vec3 :=
  match skybox_texture with
  | some skybox_path =>
    if caps.hasTexture skybox_path then
      let d := Vec3.normalized caps dir
      let theta := caps.atan2 (-d.x) (-d.z)
      let phi := caps.asin d.y
      let u := fq (1/2) + theta / (fq 2 * fq piF32)
      let v := fq (1/2) - phi / fq piF32
      let u_clamped := Fp.clampF u (fq 0) (fq (9999/10000))
      let v_clamped := Fp.clampF v (fq 0) (fq (9999/10000))
      let width : ℚ := caps.texWidth skybox_path
      let height : ℚ := caps.texHeight skybox_path
      let tx := Fp.toU32 (u_clamped * fq width)
      let ty := Fp.toU32 (v_clamped * fq height)
      V3.toF (caps.getPixelColor skybox_path tx ty)
    else skyGradient caps dir
  | none => skyGradient caps dir

/-- Model of `main.rs` `cast_shadow`: shadow-ray query toward a light,
returning the partial-shadow attenuation `0.7` for an occluder strictly
closer than the light, and `0.0` otherwise. -/
def cast_shadow (caps : Caps) (intersect : Intersect) (light : Light)
    (bvh : BVHNode) (objects : List Cube) : ℚ :=
  let light_dir := Vec3.normalized caps (V3.toF light.position - intersect.point)
  let shadow_origin := intersect.point + intersect.normal * fq (1/10000)
  let inv_dir : Vec3 := ⟨fq 1 / light_dir.x, fq 1 / light_dir.y, fq 1 / light_dir.z⟩
  let shadow_hit := bvh.intersect objects shadow_origin light_dir inv_dir
  if shadow_hit.is_intersecting then
    let light_distance := Vec3.lengthF caps (V3.toF light.position - intersect.point)
    if Fp.lt shadow_hit.distance light_distance then 7/10 else 0
  else 0

/-- Model of the constant `ORIGIN_BIAS`. -/
def ORIGIN_BIAS : ℚ := 1/10000

/-- Model of `main.rs` `offset_origin`. -/
def offset_origin (intersect : Intersect) (ray_direction : Vec3) : Vec3 :=
  let offset := intersect.normal * fq ORIGIN_BIAS
  if Fp.lt (Vec3.dot ray_direction intersect.normal) (fq 0) then
    intersect.point - offset
  else intersect.point + offset

/-- Loop body of the per-light accumulation in `cast_ray`: the accumulator
carries `(total_diffuse, total_specular)`; a light whose clamped Lambertian
term is below `0.01` leaves the accumulator unchanged (the `continue`). -/
def lightStep (caps : Caps) (bvh : BVHNode) (objects : List Cube)
    (intersect : Intersect) (view_direction normal : Vec3)
    (acc : Vec3 × Vec3) (light : Light) : Vec3 × Vec3 :=
  let light_direction := Vec3.normalized caps (V3.toF light.position - intersect.point)
  let diffuse_intensity := Fp.maxF (Vec3.dot normal light_direction) (fq 0)
  if Fp.lt diffuse_intensity (fq (1/100)) then acc
  else
    let shadow_intensity := cast_shadow caps intersect light bvh objects
    let light_intensity : ℚ := light.intensity * (1 - shadow_intensity)
    let final_diffuse_intensity := diffuse_intensity * fq light_intensity
    let total_diffuse := acc.1 + V3.toF light.color * final_diffuse_intensity
    let reflection_direction := Vec3.normalized caps (reflect (-light_direction) normal)
    let specular_intensity :=
      caps.powf (Fp.maxF (Vec3.dot view_direction reflection_direction) (fq 0))
        (fq intersect.material.specular) * fq light_intensity
    let total_specular := acc.2 + V3.toF light.color * specular_intensity
    (total_diffuse, total_specular)

/-- Base diffuse color resolution of `cast_ray`: texture sample at the
hit's UV when the material carries an available texture, else the flat
diffuse color. -/
def diffuseColorOf (caps : Caps) (intersect : Intersect) : Vec3 :=
  match intersect.material.texture with
  | some texture_path =>
    if caps.hasTexture texture_path then
      let width := caps.texWidth texture_path
      let height := caps.texHeight texture_path
      let tx := Fp.toU32 (intersect.u * fq width)
      let ty := Fp.toU32 (intersect.v * fq height)
      V3.toF (caps.getPixelColor texture_path tx ty)
    else V3.toF intersect.material.diffuse
  | none => V3.toF intersect.material.diffuse

/-- Model of `main.rs` `cast_ray`, the recursive shading function.  The
source guard `if depth > 2 { return sky }` is written as a dependent `if`
so that the recursion (well-founded on `3 - depth`) is accepted; both
recursive calls pass `depth + 1` exactly as in the source. -/
def cast_ray (caps : Caps) (ray_origin ray_direction : Vec3) (bvh : BVHNode)
    (objects : List Cube) (lights : List Light) (depth : ℕ)
    (skybox_texture : Option String) : Vec3 :=
  if _h : 2 < depth then procedural_sky caps ray_direction skybox_texture
  else
    let inv_dir : Vec3 :=
      ⟨fq 1 / ray_direction.x, fq 1 / ray_direction.y, fq 1 / ray_direction.z⟩
    let intersect := bvh.intersect objects ray_origin ray_direction inv_dir
    if !intersect.is_intersecting then procedural_sky caps ray_direction skybox_texture
    else
      let view_direction := Vec3.normalized caps (ray_origin - intersect.point)
      let normal := intersect.normal
      let totals := lights.foldl
        (lightStep caps bvh objects intersect view_direction normal) (Vec3.zero, Vec3.zero)
      let diffuse_color := diffuseColorOf caps intersect
      let diffuse := diffuse_color * totals.1
      let specular := totals.2
      let reflectivity := intersect.material.reflectivity
      let reflection_color :=
        if (1/20 : ℚ) < reflectivity then
          let reflect_direction := reflect ray_direction normal
          let reflect_origin := intersect.point + normal * fq ORIGIN_BIAS
          cast_ray caps reflect_origin reflect_direction bvh objects lights
            (depth + 1) skybox_texture
        else Vec3.zero
      let transparency := intersect.material.transparency
      let refraction_color :=
        if (1/20 : ℚ) < transparency then
          let refract_direction := refract caps ray_direction normal
            intersect.material.refractive_index
          let refract_origin := offset_origin intersect refract_direction
          cast_ray caps refract_origin refract_direction bvh objects lights
            (depth + 1) skybox_texture
        else Vec3.zero
      let emissive :=
        if (1/100 : ℚ) < intersect.material.emission_strength then
          diffuse_color * V3.toF intersect.material.emission
            * fq intersect.material.emission_strength
        else Vec3.zero
      diffuse * fq intersect.material.albedo0 + specular * fq intersect.material.albedo1
        + reflection_color * fq reflectivity + refraction_color * fq transparency + emissive
termination_by 3 - depth
decreasing_by
  · omega
  · omega

/-- Fuel-indexed companion of `cast_ray`: identical body, with the
recursion replaced by a structurally decreasing fuel argument.  Fuel
`3 - depth` suffices (proved below), which is the formal content of the
bounded-recursion property. -/
def castRayFuel (caps : Caps) (fuel : ℕ) (ray_origin ray_direction : Vec3)
    (bvh : BVHNode) (objects : List Cube) (lights : List Light) (depth : ℕ)
    (skybox_texture : Option String) : Vec3 :=
  match fuel with
  | 0 => procedural_sky caps ray_direction skybox_texture
  | fuel + 1 =>
    if 2 < depth then procedural_sky caps ray_direction skybox_texture
    else
      let inv_dir : Vec3 :=
        ⟨fq 1 / ray_direction.x, fq 1 / ray_direction.y, fq 1 / ray_direction.z⟩
      let intersect := bvh.intersect objects ray_origin ray_direction inv_dir
      if !intersect.is_intersecting then procedural_sky caps ray_direction skybox_texture
      else
        let view_direction := Vec3.normalized caps (ray_origin - intersect.point)
        let normal := intersect.normal
        let totals := lights.foldl
          (lightStep caps bvh objects intersect view_direction normal) (Vec3.zero, Vec3.zero)
        let diffuse_color := diffuseColorOf caps intersect
        let diffuse := diffuse_color * totals.1
        let specular := totals.2
        let reflectivity := intersect.material.reflectivity
        let reflection_color :=
          if (1/20 : ℚ) < reflectivity then
            let reflect_direction := reflect ray_direction normal
            let reflect_origin := intersect.point + normal * fq ORIGIN_BIAS
            castRayFuel caps fuel reflect_origin reflect_direction bvh objects lights
              (depth + 1) skybox_texture
          else Vec3.zero
        let transparency := intersect.material.transparency
        let refraction_color :=
          if (1/20 : ℚ) < transparency then
            let refract_direction := refract caps ray_direction normal
              intersect.material.refractive_index
            let refract_origin := offset_origin intersect refract_direction
            castRayFuel caps fuel refract_origin refract_direction bvh objects lights
              (depth + 1) skybox_texture
          else Vec3.zero
        let emissive :=
          if (1/100 : ℚ) < intersect.material.emission_strength then
            diffuse_color * V3.toF intersect.material.emission
              * fq intersect.material.emission_strength
          else Vec3.zero
        diffuse * fq intersect.material.albedo0 + specular * fq intersect.material.albedo1
          + reflection_color * fq reflectivity + refraction_color * fq transparency + emissive

/-- Model of `camera.rs` `Camera` as the core consumes it: the eye point
and the orthonormal basis used by `basis_change`.  Camera movement
(orbit/zoom) is an excluded collaborator. -/
structure Camera where
  eye : Vec3
  right : Vec3
  up : Vec3
  forward : Vec3

/-- Model of `Camera::basis_change`. -/
def Camera.basis_change (self : Camera) (p : Vec3) : Vec3 :=
  ⟨p.x * self.right.x + p.y * self.up.x - p.z * self.forward.x,
   p.x * self.right.y + p.y * self.up.y - p.z * self.forward.y,
   p.x * self.right.z + p.y * self.up.z - p.z * self.forward.z⟩

/-- Model of `RenderConfig` (the four precomputed per-frame scalars; the
constructor's `tan` lives outside the core, so the fields are taken as
given). -/
structure RenderConfig where
  aspect_ratio : ℚ
  perspective_scale : ℚ
  inv_width : ℚ
  inv_height : ℚ

/-- Model of raylib `Color`, four 8-bit channels. -/
structure Color where
  r : ℕ
  g : ℕ
  b : ℕ
  a : ℕ
deriving DecidableEq

/-- Model of `material.rs` `vector3_to_color`. -/
def vector3_to_color (v : Vec3) : Color :=
  ⟨Fp.toU8 (Fp.minF (v.x * fq 255) (fq 255)),
   Fp.toU8 (Fp.minF (v.y * fq 255) (fq 255)),
   Fp.toU8 (Fp.minF (v.z * fq 255) (fq 255)),
   255⟩

/-- Model of `main.rs` `render_row_range`: the dense pixel list of rows
`start_y ≤ y < end_y`, pixels in row-major order. -/
def render_row_range (caps : Caps) (start_y end_y width : ℕ) (bvh : BVHNode)
    (objects : List Cube) (camera : Camera) (lights : List Light)
    (config : RenderConfig) (skybox_texture : Option String) : List Color :=
  (List.range' start_y (end_y - start_y)).flatMap fun y =>
    (List.range width).map fun x =>
      let screen_x := (2 * (x : ℚ) * config.inv_width - 1)
        * config.aspect_ratio * config.perspective_scale
      let screen_y := (1 - 2 * (y : ℚ) * config.inv_height) * config.perspective_scale
      let ray_direction := Vec3.normalized caps ⟨fq screen_x, fq screen_y, fq (-1)⟩
      let rotated_direction := camera.basis_change ray_direction
      let pixel_color_vec := cast_ray caps camera.eye rotated_direction bvh objects
        lights 0 skybox_texture
      vector3_to_color pixel_color_vec

/-- Rows per worker band in `render`: the exact ceiling division modelling
`(height as f32 / num_threads as f32).ceil() as i32` (exact for all
realistic image sizes). -/
def rows_per_thread (num_threads height : ℕ) : ℕ :=
  (height + num_threads - 1) / num_threads

/-- Band list of the spawn loop in `render`, starting at thread id `t`
with `remaining` iterations: thread `t` covers rows
`[t * rpt, min ((t+1) * rpt) height)`; the loop breaks at the first `t`
with `t * rpt ≥ height`. -/
def bandsFrom (rpt height : ℕ) : ℕ → ℕ → List (ℕ × ℕ)
  | _, 0 => []
  | t, r + 1 =>
    if t * rpt < height then
      (t * rpt, Min.min ((t + 1) * rpt) height) :: bandsFrom rpt height (t + 1) r
    else []

/-- Row bands produced by `render` for `num_threads` workers over
`height` rows. -/
def renderBands (num_threads height : ℕ) : List (ℕ × ℕ) :=
  bandsFrom (rows_per_thread num_threads height) height 0 num_threads

@[simp] theorem V3.toF_x (v : V3) : (V3.toF v).x = Fp.fin v.x := rfl

@[simp] theorem V3.toF_y (v : V3) : (V3.toF v).y = Fp.fin v.y := rfl

@[simp] theorem V3.toF_z (v : V3) : (V3.toF v).z = Fp.fin v.z := rfl

/-- Lifting of the finite-scalar embedding through a selection. -/
theorem ite_fin (c : Prop) [Decidable c] (a b : ℚ) :
    (if c then Fp.fin a else Fp.fin b) = Fp.fin (if c then a else b) :=
  (apply_ite Fp.fin c a b).symm

/-- Selection form of a minimum, as produced by the slab swaps. -/
theorem ite_lt_min (a b : ℚ) : (if b < a then b else a) = Min.min a b := by
  split_ifs with h
  · exact (min_eq_right h.le).symm
  · exact (min_eq_left (not_lt.mp h)).symm

/-- Selection form of a maximum, as produced by the slab swaps. -/
theorem ite_lt_max (a b : ℚ) : (if b < a then a else b) = Max.max a b := by
  split_ifs with h
  · exact (max_eq_left h.le).symm
  · exact (max_eq_right (not_lt.mp h)).symm

/-- Selection form of a maximum, as produced by the slab updates. -/
theorem ite_lt_max' (a b : ℚ) : (if a < b then b else a) = Max.max a b := by
  split_ifs with h
  · exact (max_eq_right h.le).symm
  · exact (max_eq_left (not_lt.mp h)).symm

/-- Ordered lower slab parameter of one axis, for a finite ray. -/
def loQ (bmin bmax o v : ℚ) : ℚ := Min.min ((bmin - o) * v) ((bmax - o) * v)

/-- Ordered upper slab parameter of one axis, for a finite ray. -/
def hiQ (bmin bmax o v : ℚ) : ℚ := Max.max ((bmin - o) * v) ((bmax - o) * v)

/-- Rational-level restatement of the boolean slab algorithm on the six
ordered per-axis parameters. -/
def slabBool (lx hx ly hy lz hz : ℚ) : Bool :=
  if hy < lx ∨ hx < ly then false
  else
    let tmin := Max.max ly lx
    let tmax := Min.min hx hy
    if hz < tmin ∨ tmax < lz then false
    else true

/-- Rational-level restatement of the slab phase of `Cube::ray_intersect`
on the six ordered per-axis parameters. -/
def slabData (lx hx ly hy lz hz : ℚ) : Option (ℚ × ℚ) :=
  if hy < lx ∨ hx < ly then none
  else
    let tmin := Max.max ly lx
    let tmax := Min.min hx hy
    if hz < tmin ∨ tmax < lz then none
    else some (Max.max lz tmin, Min.min tmax hz)

/-- Entry parameter of a box for a finite ray with inverse direction `v`. -/
def slabEnter (A : AABB) (o v : V3) : ℚ :=
  Max.max (loQ A.min.z A.max.z o.z v.z)
    (Max.max (loQ A.min.y A.max.y o.y v.y) (loQ A.min.x A.max.x o.x v.x))

/-- Exit parameter of a box for a finite ray with inverse direction `v`. -/
def slabExit (A : AABB) (o v : V3) : ℚ :=
  Min.min (Min.min (hiQ A.min.x A.max.x o.x v.x) (hiQ A.min.y A.max.y o.y v.y))
    (hiQ A.min.z A.max.z o.z v.z)

theorem AABB.intersect_eq_slabBool (A : AABB) (o v : V3) :
    A.intersect (V3.toF o) (V3.toF v) =
      slabBool (loQ A.min.x A.max.x o.x v.x) (hiQ A.min.x A.max.x o.x v.x)
        (loQ A.min.y A.max.y o.y v.y) (hiQ A.min.y A.max.y o.y v.y)
        (loQ A.min.z A.max.z o.z v.z) (hiQ A.min.z A.max.z o.z v.z) := by
  simp only [AABB.intersect, V3.toF_x, V3.toF_y, V3.toF_z, fq_eq, Fp.sub_eq, Fp.neg_fin,
    Fp.add_fin_fin, Fp.mul_fin_fin, Fp.lt_fin_fin, ite_fin, slabBool, loQ, hiQ,
    Bool.or_eq_true, decide_eq_true_eq, ite_lt_min, ite_lt_max,
    ← sub_eq_add_neg]

theorem slab_reject1_not_pass {lx hx ly hy lz hz : ℚ} (h : hy < lx ∨ hx < ly) :
    ¬(Max.max lz (Max.max ly lx) ≤ Min.min (Min.min hx hy) hz) := by
  rw [not_le]
  rcases h with h | h
  · calc Min.min (Min.min hx hy) hz ≤ Min.min hx hy := min_le_left _ _
      _ ≤ hy := min_le_right _ _
      _ < lx := h
      _ ≤ Max.max ly lx := le_max_right _ _
      _ ≤ Max.max lz (Max.max ly lx) := le_max_right _ _
  · calc Min.min (Min.min hx hy) hz ≤ Min.min hx hy := min_le_left _ _
      _ ≤ hx := min_le_left _ _
      _ < ly := h
      _ ≤ Max.max ly lx := le_max_left _ _
      _ ≤ Max.max lz (Max.max ly lx) := le_max_right _ _

theorem slab_reject2_not_pass {lx hx ly hy lz hz : ℚ}
    (h : hz < Max.max ly lx ∨ Min.min hx hy < lz) :
    ¬(Max.max lz (Max.max ly lx) ≤ Min.min (Min.min hx hy) hz) := by
  rw [not_le]
  rcases h with h | h
  · calc Min.min (Min.min hx hy) hz ≤ hz := min_le_right _ _
      _ < Max.max ly lx := h
      _ ≤ Max.max lz (Max.max ly lx) := le_max_right _ _
  · calc Min.min (Min.min hx hy) hz ≤ Min.min hx hy := min_le_left _ _
      _ < lz := h
      _ ≤ Max.max lz (Max.max ly lx) := le_max_left _ _

theorem slab_pass {lx hx ly hy lz hz : ℚ} (h1 : lx ≤ hx) (h2 : ly ≤ hy) (h3 : lz ≤ hz)
    (hr1 : ¬(hy < lx ∨ hx < ly)) (hr2 : ¬(hz < Max.max ly lx ∨ Min.min hx hy < lz)) :
    Max.max lz (Max.max ly lx) ≤ Min.min (Min.min hx hy) hz := by
  push_neg at hr1 hr2
  refine max_le ?_ (max_le ?_ ?_)
  · exact le_min (le_min (le_trans hr2.2 (min_le_left _ _))
      (le_trans hr2.2 (min_le_right _ _))) h3
  · exact le_min (le_min hr1.2 h2) (le_trans (le_max_left ly lx) hr2.1)
  · exact le_min (le_min h1 hr1.1) (le_trans (le_max_right ly lx) hr2.1)

theorem slabBool_iff {lx hx ly hy lz hz : ℚ} (h1 : lx ≤ hx) (h2 : ly ≤ hy) (h3 : lz ≤ hz) :
    slabBool lx hx ly hy lz hz = true ↔
      Max.max lz (Max.max ly lx) ≤ Min.min (Min.min hx hy) hz := by
  simp only [slabBool]
  split_ifs with hr1 hr2
  · exact iff_of_false (by simp) (slab_reject1_not_pass hr1)
  · exact iff_of_false (by simp) (slab_reject2_not_pass hr2)
  · exact iff_of_true rfl (slab_pass h1 h2 h3 hr1 hr2)

theorem slabData_eq {lx hx ly hy lz hz : ℚ} (h1 : lx ≤ hx) (h2 : ly ≤ hy) (h3 : lz ≤ hz) :
    slabData lx hx ly hy lz hz =
      if Max.max lz (Max.max ly lx) ≤ Min.min (Min.min hx hy) hz then
        some (Max.max lz (Max.max ly lx), Min.min (Min.min hx hy) hz)
      else none := by
  simp only [slabData]
  split_ifs with hr1 hp1 hr2 hp2 hp3
  · exact absurd hp1 (slab_reject1_not_pass hr1)
  · rfl
  · exact absurd hp2 (slab_reject2_not_pass hr2)
  · rfl
  · rfl
  · exact absurd (slab_pass h1 h2 h3 hr1 hr2) hp3

/-- Componentwise reciprocal of a direction with nonzero components, the
rational counterpart of the `inv_dir` precomputation. -/
def invV (d : V3) : V3 := ⟨1/d.x, 1/d.y, 1/d.z⟩

theorem Cube.slabParams_toF (c : Cube) (o d : V3)
    (hdx : d.x ≠ 0) (hdy : d.y ≠ 0) (hdz : d.z ≠ 0) :
    c.slabParams (V3.toF o) (V3.toF d) =
      (slabData
        (loQ c.min_bounds.x c.max_bounds.x o.x (1/d.x))
        (hiQ c.min_bounds.x c.max_bounds.x o.x (1/d.x))
        (loQ c.min_bounds.y c.max_bounds.y o.y (1/d.y))
        (hiQ c.min_bounds.y c.max_bounds.y o.y (1/d.y))
        (loQ c.min_bounds.z c.max_bounds.z o.z (1/d.z))
        (hiQ c.min_bounds.z c.max_bounds.z o.z (1/d.z))).map
          fun p => (Fp.fin p.1, Fp.fin p.2) := by
  simp only [Cube.slabParams, V3.toF_x, V3.toF_y, V3.toF_z, fq_eq, Fp.div_fin_fin,
    hdx, hdy, hdz, if_false, Fp.sub_eq, Fp.neg_fin, Fp.add_fin_fin, Fp.mul_fin_fin,
    Fp.lt_fin_fin, ite_fin, slabData, loQ, hiQ, Bool.or_eq_true, decide_eq_true_eq,
    ite_lt_min, ite_lt_max, ← sub_eq_add_neg]
  split_ifs <;> rfl

/-- Entry slab parameter of a cube for a finite ray (the final `tmin`). -/
def cubeEnter (c : Cube) (o d : V3) : ℚ := slabEnter (AABB.from_cube c) o (invV d)

/-- Exit slab parameter of a cube for a finite ray (the final `tmax`). -/
def cubeExit (c : Cube) (o d : V3) : ℚ := slabExit (AABB.from_cube c) o (invV d)

/-- Hit distance selected by `Cube::ray_intersect` for a finite ray:
the entry parameter when it clears the `0.001` guard, else the exit
parameter. -/
def cubeDist (c : Cube) (o d : V3) : ℚ :=
  if 1/1000 < cubeEnter c o d then cubeEnter c o d else cubeExit c o d

/-- Populated-hit predicate of `Cube::ray_intersect` for a finite ray:
the slab intervals overlap and the selected distance clears the guard. -/
def cubeHit (c : Cube) (o d : V3) : Prop :=
  cubeEnter c o d ≤ cubeExit c o d ∧ 1/1000 ≤ cubeDist c o d

instance (c : Cube) (o d : V3) : Decidable (cubeHit c o d) := by
  unfold cubeHit; infer_instance


theorem Cube.ray_intersect_char (c : Cube) (o d : V3)
    (hdx : d.x ≠ 0) (hdy : d.y ≠ 0) (hdz : d.z ≠ 0) :
    ((c.ray_intersect (V3.toF o) (V3.toF d)).is_intersecting = true ↔ cubeHit c o d) ∧
      (c.ray_intersect (V3.toF o) (V3.toF d)).distance =
        (if cubeHit c o d then Fp.fin (cubeDist c o d) else fq 0) ∧
      (¬ cubeHit c o d → c.ray_intersect (V3.toF o) (V3.toF d) = Intersect.empty) := by
  have hlo : ∀ bmin bmax oq v : ℚ, loQ bmin bmax oq v ≤ hiQ bmin bmax oq v := by
    intro bmin bmax oq v
    exact le_trans (min_le_left _ _) (le_max_left _ _)
  have hEnter : cubeEnter c o d =
      Max.max (loQ c.min_bounds.z c.max_bounds.z o.z (1/d.z))
        (Max.max (loQ c.min_bounds.y c.max_bounds.y o.y (1/d.y))
          (loQ c.min_bounds.x c.max_bounds.x o.x (1/d.x))) := rfl
  have hExit : cubeExit c o d =
      Min.min (Min.min (hiQ c.min_bounds.x c.max_bounds.x o.x (1/d.x))
          (hiQ c.min_bounds.y c.max_bounds.y o.y (1/d.y)))
        (hiQ c.min_bounds.z c.max_bounds.z o.z (1/d.z)) := rfl
  rw [Cube.ray_intersect, Cube.slabParams_toF c o d hdx hdy hdz,
    slabData_eq (hlo _ _ _ _) (hlo _ _ _ _) (hlo _ _ _ _), ← hEnter, ← hExit]
  by_cases hpass : cubeEnter c o d ≤ cubeExit c o d
  · rw [if_pos hpass]
    simp only [Option.map_some', fq_eq, Fp.lt_fin_fin, decide_eq_true_eq, ite_fin]
    rw [show (if 1/1000 < cubeEnter c o d then cubeEnter c o d
        else cubeExit c o d) = cubeDist c o d from rfl]
    by_cases hguard : cubeDist c o d < 1/1000
    · rw [if_pos hguard]
      have hnot : ¬ cubeHit c o d := fun h => absurd h.2 (not_le.mpr hguard)
      refine ⟨?_, ?_, fun _ => rfl⟩
      · exact iff_of_false (by simp [Intersect.empty]) hnot
      · rw [if_neg hnot]; rfl
    · rw [if_neg hguard]
      have hhit : cubeHit c o d := ⟨hpass, not_lt.mp hguard⟩
      refine ⟨iff_of_true rfl hhit, ?_, fun h => absurd hhit h⟩
      rw [if_pos hhit]; rfl
  · rw [if_neg hpass]
    have hnot : ¬ cubeHit c o d := fun h => hpass h.1
    simp only [Option.map_none']
    refine ⟨iff_of_false (by simp [Intersect.empty]) hnot, ?_, fun _ => by simp⟩
    rw [if_neg hnot]; rfl

/-- Well-formed box: each minimum bound is at most the matching maximum. -/
def properBox (A : AABB) : Prop :=
  A.min.x ≤ A.max.x ∧ A.min.y ≤ A.max.y ∧ A.min.z ≤ A.max.z

/-- Componentwise box containment: `B` encloses `A`. -/
def boxContains (B A : AABB) : Prop :=
  B.min.x ≤ A.min.x ∧ B.min.y ≤ A.min.y ∧ B.min.z ≤ A.min.z ∧
    A.max.x ≤ B.max.x ∧ A.max.y ≤ B.max.y ∧ A.max.z ≤ B.max.z

/-- Slab-test pass predicate of a box for a finite ray with inverse
direction `v`. -/
def passQ (A : AABB) (o v : V3) : Prop := slabEnter A o v ≤ slabExit A o v

theorem boxContains_refl (A : AABB) : boxContains A A :=
  ⟨le_refl _, le_refl _, le_refl _, le_refl _, le_refl _, le_refl _⟩

theorem boxContains_trans {C B A : AABB} (h1 : boxContains C B) (h2 : boxContains B A) :
    boxContains C A :=
  ⟨le_trans h1.1 h2.1, le_trans h1.2.1 h2.2.1, le_trans h1.2.2.1 h2.2.2.1,
   le_trans h2.2.2.2.1 h1.2.2.2.1, le_trans h2.2.2.2.2.1 h1.2.2.2.2.1,
   le_trans h2.2.2.2.2.2 h1.2.2.2.2.2⟩

theorem merge_contains_left (a b : AABB) : boxContains (a.merge b) a := by
  unfold AABB.merge boxContains
  exact ⟨min_le_left _ _, min_le_left _ _, min_le_left _ _,
    le_max_left _ _, le_max_left _ _, le_max_left _ _⟩

theorem merge_contains_right (a b : AABB) : boxContains (a.merge b) b := by
  unfold AABB.merge boxContains
  exact ⟨min_le_right _ _, min_le_right _ _, min_le_right _ _,
    le_max_right _ _, le_max_right _ _, le_max_right _ _⟩

theorem loQ_mono {bm am aM bM : ℚ} (h1 : bm ≤ am) (h2 : aM ≤ bM) (hp : am ≤ aM)
    (o v : ℚ) : loQ bm bM o v ≤ loQ am aM o v := by
  unfold loQ
  rcases le_or_lt 0 v with hv | hv
  · have p1 : (bm - o) * v ≤ (am - o) * v :=
      mul_le_mul_of_nonneg_right (by linarith) hv
    have p2 : (am - o) * v ≤ (aM - o) * v :=
      mul_le_mul_of_nonneg_right (by linarith) hv
    rw [min_eq_left p2]
    exact le_trans (min_le_left _ _) p1
  · have p1 : (aM - o) * v ≤ (am - o) * v :=
      mul_le_mul_of_nonpos_right (by linarith) hv.le
    have p2 : (bM - o) * v ≤ (aM - o) * v :=
      mul_le_mul_of_nonpos_right (by linarith) hv.le
    rw [min_eq_right p1]
    exact le_trans (min_le_right _ _) p2

theorem hiQ_mono {bm am aM bM : ℚ} (h1 : bm ≤ am) (h2 : aM ≤ bM) (hp : am ≤ aM)
    (o v : ℚ) : hiQ am aM o v ≤ hiQ bm bM o v := by
  unfold hiQ
  rcases le_or_lt 0 v with hv | hv
  · have p1 : (am - o) * v ≤ (aM - o) * v :=
      mul_le_mul_of_nonneg_right (by linarith) hv
    have p2 : (aM - o) * v ≤ (bM - o) * v :=
      mul_le_mul_of_nonneg_right (by linarith) hv
    rw [max_eq_right p1]
    exact le_trans p2 (le_max_right _ _)
  · have p1 : (am - o) * v ≤ (bm - o) * v :=
      mul_le_mul_of_nonpos_right (by linarith) hv.le
    have p2 : (aM - o) * v ≤ (am - o) * v :=
      mul_le_mul_of_nonpos_right (by linarith) hv.le
    rw [max_eq_left p2]
    exact le_trans p1 (le_max_left _ _)

theorem passQ_mono {B A : AABB} (hc : boxContains B A) (hp : properBox A) (o v : V3) :
    passQ A o v → passQ B o v := by
  intro h
  obtain ⟨c1, c2, c3, c4, c5, c6⟩ := hc
  obtain ⟨p1, p2, p3⟩ := hp
  have elo : slabEnter B o v ≤ slabEnter A o v := by
    unfold slabEnter
    exact max_le_max (loQ_mono c3 c6 p3 _ _) (max_le_max (loQ_mono c2 c5 p2 _ _)
      (loQ_mono c1 c4 p1 _ _))
  have ehi : slabExit A o v ≤ slabExit B o v := by
    unfold slabExit
    exact min_le_min (min_le_min (hiQ_mono c1 c4 p1 _ _) (hiQ_mono c2 c5 p2 _ _))
      (hiQ_mono c3 c6 p3 _ _)
  exact le_trans elo (le_trans h ehi)

theorem AABB.intersect_true_iff (A : AABB) (o v : V3) :
    A.intersect (V3.toF o) (V3.toF v) = true ↔ passQ A o v := by
  rw [AABB.intersect_eq_slabBool]
  exact slabBool_iff (le_trans (min_le_left _ _) (le_max_left _ _))
    (le_trans (min_le_left _ _) (le_max_left _ _))
    (le_trans (min_le_left _ _) (le_max_left _ _))

theorem AABB.merge_assoc (a b c : AABB) : (a.merge b).merge c = a.merge (b.merge c) := by
  simp only [AABB.merge, min_assoc, max_assoc]

theorem AABB.merge_comm (a b : AABB) : a.merge b = b.merge a := by
  simp only [AABB.merge, min_comm a.min.x, min_comm a.min.y, min_comm a.min.z,
    max_comm a.max.x, max_comm a.max.y, max_comm a.max.z]

theorem AABB.merge_self (a : AABB) : a.merge a = a := by
  simp only [AABB.merge, min_self, max_self]

/-- Bounding box of the primitive at one index (total via `getD`). -/
def boxOf (cubes : List Cube) (i : ℕ) : AABB := AABB.from_cube (cubes.getD i defCube)

/-- One step of the bounds fold in `BVHNode::build`. -/
def mergeStep (cubes : List Cube) (b : AABB) (i : ℕ) : AABB := b.merge (boxOf cubes i)

/-- Merged bounds of a nonempty index slice, as computed by the bounds
fold of `BVHNode::build` (junk box on the empty slice). -/
def bigMerge (cubes : List Cube) : List ℕ → AABB
  | [] => ⟨⟨0, 0, 0⟩, ⟨0, 0, 0⟩⟩
  | i :: rest => rest.foldl (mergeStep cubes) (boxOf cubes i)

theorem mergeStep_rightComm (cubes : List Cube) (b : AABB) (i j : ℕ) :
    mergeStep cubes (mergeStep cubes b i) j = mergeStep cubes (mergeStep cubes b j) i := by
  unfold mergeStep
  rw [AABB.merge_assoc, AABB.merge_assoc, AABB.merge_comm (boxOf cubes i)]

theorem foldl_mergeStep_perm (cubes : List Cube) {l1 l2 : List ℕ} (h : List.Perm l1 l2)
    (X : AABB) : l1.foldl (mergeStep cubes) X = l2.foldl (mergeStep cubes) X := by
  exact @List.Perm.foldl_eq _ _ (mergeStep cubes) l1 l2 ⟨mergeStep_rightComm cubes⟩ h X

theorem foldl_mergeStep_absorb (cubes : List Cube) {i : ℕ} :
    ∀ (l : List ℕ), i ∈ l → ∀ X : AABB,
      l.foldl (mergeStep cubes) (X.merge (boxOf cubes i)) = l.foldl (mergeStep cubes) X := by
  intro l
  induction l with
  | nil => intro h; exact absurd h (List.not_mem_nil _)
  | cons j t ih =>
    intro hmem X
    rcases List.mem_cons.mp hmem with h | h
    · subst h
      simp only [List.foldl_cons]
      have : mergeStep cubes (X.merge (boxOf cubes i)) i = mergeStep cubes X i := by
        unfold mergeStep
        rw [AABB.merge_assoc, AABB.merge_self]
      rw [this]
    · simp only [List.foldl_cons]
      have : mergeStep cubes (X.merge (boxOf cubes i)) j
          = (mergeStep cubes X j).merge (boxOf cubes i) := by
        unfold mergeStep
        rw [AABB.merge_assoc, AABB.merge_assoc, AABB.merge_comm (boxOf cubes i)]
      rw [this, ih h]

theorem bigMerge_perm (cubes : List Cube) {l1 l2 : List ℕ} (h : List.Perm l1 l2)
    (hne : l1 ≠ []) : bigMerge cubes l1 = bigMerge cubes l2 := by
  match l1, l2 with
  | [], _ => exact absurd rfl hne
  | _ :: _, [] => exact absurd h.eq_nil (by simp)
  | a :: r1, b :: r2 =>
    have key : ∀ (c : ℕ) (t : List ℕ), bigMerge cubes (c :: t)
        = (c :: t).foldl (mergeStep cubes) (boxOf cubes c) := by
      intro c t
      simp only [bigMerge, List.foldl_cons]
      have : mergeStep cubes (boxOf cubes c) c = boxOf cubes c := AABB.merge_self _
      rw [this]
    rw [key a r1, key b r2]
    rw [foldl_mergeStep_perm cubes h (boxOf cubes a)]
    have ha : a ∈ b :: r2 := h.mem_iff.mp (List.mem_cons_self a r1)
    rcases List.mem_cons.mp ha with hab | har
    · rw [hab]
    · simp only [List.foldl_cons]
      have h1 : mergeStep cubes (boxOf cubes a) b
          = (boxOf cubes b).merge (boxOf cubes a) := AABB.merge_comm _ _
      have h2 : mergeStep cubes (boxOf cubes b) b = boxOf cubes b := AABB.merge_self _
      rw [h1, h2, foldl_mergeStep_absorb cubes r2 har (boxOf cubes b)]

theorem bigMerge_append (cubes : List Cube) {l1 l2 : List ℕ} (h1 : l1 ≠ []) (h2 : l2 ≠ []) :
    bigMerge cubes (l1 ++ l2) = (bigMerge cubes l1).merge (bigMerge cubes l2) := by
  match l1, l2 with
  | a :: r1, b :: r2 =>
    simp only [bigMerge, List.cons_append, List.foldl_append]
    have key : ∀ (t : List ℕ) (X Y : AABB),
        t.foldl (mergeStep cubes) (X.merge Y) = X.merge (t.foldl (mergeStep cubes) Y) := by
      intro t
      induction t with
      | nil => intro X Y; rfl
      | cons j tt ih =>
        intro X Y
        simp only [List.foldl_cons]
        rw [show mergeStep cubes (X.merge Y) j = X.merge (mergeStep cubes Y j) from
          AABB.merge_assoc _ _ _, ih]
    rw [show ((b :: r2).foldl (mergeStep cubes) (r1.foldl (mergeStep cubes)
      (boxOf cubes a))) = r2.foldl (mergeStep cubes) ((r1.foldl (mergeStep cubes)
        (boxOf cubes a)).merge (boxOf cubes b)) from by simp [List.foldl_cons, mergeStep],
      key]

/-- Structural invariant of a built tree: every leaf holds a valid index
and exactly its primitive's bounds; every internal node's bounds is
exactly the merge of its children's bounds. -/
def wfTree (cubes : List Cube) : BVHNode → Prop
  | .leaf b i => i < cubes.length ∧ b = boxOf cubes i
  | .internal b l r => wfTree cubes l ∧ wfTree cubes r ∧
      b = (l.nodeBounds).merge (r.nodeBounds)

theorem boundsFoldlM (cubes : List Cube) :
    ∀ (l : List ℕ), (∀ i ∈ l, i < cubes.length) → ∀ init : AABB,
      l.foldlM (fun b i => (cubes[i]?).map fun c => b.merge (AABB.from_cube c)) init
        = some (l.foldl (mergeStep cubes) init) := by
  intro l
  induction l with
  | nil => intro _ init; rfl
  | cons j t ih =>
    intro hok init
    have hj : j < cubes.length := hok j (List.mem_cons_self _ _)
    rw [List.foldlM_cons, List.getElem?_eq_getElem hj, Option.map_some']
    simp only [Option.bind_eq_bind, Option.some_bind]
    rw [ih (fun i hi => hok i (List.mem_cons_of_mem _ hi)), List.foldl_cons]
    have : mergeStep cubes init j = init.merge (AABB.from_cube cubes[j]) := by
      unfold mergeStep boxOf
      rw [List.getD_eq_getElem cubes defCube hj]
    rw [this]

theorem BVHNode.build_spec (cubes : List Cube) :
    ∀ n, ∀ idxs : List ℕ, idxs.length ≤ n → idxs ≠ [] →
      (∀ i ∈ idxs, i < cubes.length) →
      ∃ t, BVHNode.build cubes idxs = some t ∧ wfTree cubes t ∧
        List.Perm t.treeIndices idxs ∧ t.nodeBounds = bigMerge cubes idxs := by
  intro n
  induction n with
  | zero =>
    intro idxs hlen hne _
    cases idxs with
    | nil => exact absurd rfl hne
    | cons a t => simp at hlen
  | succ n ih =>
    intro idxs hlen hne hok
    match idxs with
    | [idx] =>
      have hidx : idx < cubes.length := hok idx (List.mem_cons_self _ _)
      have hbox : AABB.from_cube cubes[idx] = boxOf cubes idx := by
        unfold boxOf
        rw [List.getD_eq_getElem cubes defCube hidx]
      refine ⟨BVHNode.leaf (boxOf cubes idx) idx, ?_, ⟨hidx, rfl⟩, ?_, ?_⟩
      · simp only [BVHNode.build, List.getElem?_eq_getElem hidx, Option.map_some', hbox]
      · simp [BVHNode.treeIndices]
      · simp [BVHNode.nodeBounds, bigMerge]
    | idx0 :: idx1 :: rest =>
      have h0 : idx0 < cubes.length := hok idx0 (List.mem_cons_self _ _)
      have hbox0 : AABB.from_cube cubes[idx0] = boxOf cubes idx0 := by
        unfold boxOf
        rw [List.getD_eq_getElem cubes defCube h0]
      have hfold := boundsFoldlM cubes (idx1 :: rest)
        (fun i hi => hok i (List.mem_cons_of_mem _ hi)) (AABB.from_cube cubes[idx0])
      have hBM : (idx1 :: rest).foldl (mergeStep cubes) (AABB.from_cube cubes[idx0])
          = bigMerge cubes (idx0 :: idx1 :: rest) := by
        rw [hbox0]; rfl
      set BM := bigMerge cubes (idx0 :: idx1 :: rest) with hBMdef
      set axis := chooseAxis BM with haxis
      set sorted := sortIndices cubes axis (idx0 :: idx1 :: rest) with hsorted
      have hperm : List.Perm sorted (idx0 :: idx1 :: rest) := sortIndices_perm _ _ _
      have hslen : sorted.length = rest.length + 2 := by
        rw [hsorted, sortIndices_length]; simp
      set mid := sorted.length / 2 with hmid
      have hmid1 : 1 ≤ mid := by omega
      have hmidlt : mid < rest.length + 2 := by omega
      have htlen : (sorted.take mid).length = mid := by
        rw [List.length_take]; omega
      have hdlen : (sorted.drop mid).length = rest.length + 2 - mid := by
        rw [List.length_drop]; omega
      have htne : sorted.take mid ≠ [] := by
        intro h
        rw [h] at htlen
        simp at htlen
        omega
      have hdne : sorted.drop mid ≠ [] := by
        intro h
        rw [h] at hdlen
        simp at hdlen
        omega
      have hok' : ∀ i ∈ sorted, i < cubes.length := fun i hi => hok i (hperm.mem_iff.mp hi)
      have hlen' : rest.length + 2 ≤ n + 1 := by
        simpa using hlen
      obtain ⟨L, hLb, hLwf, hLperm, hLbounds⟩ :=
        ih (sorted.take mid) (by omega) htne
          (fun i hi => hok' i (List.mem_of_mem_take hi))
      obtain ⟨R, hRb, hRwf, hRperm, hRbounds⟩ :=
        ih (sorted.drop mid) (by omega) hdne
          (fun i hi => hok' i (List.mem_of_mem_drop hi))
      have hbuild : BVHNode.build cubes (idx0 :: idx1 :: rest)
          = some (BVHNode.internal BM L R) := by
        simp only [BVHNode.build, List.getElem?_eq_getElem h0, Option.some_bind, hfold,
          hBM, ← haxis, ← hsorted, ← hmid, hLb, hRb, Option.map_some']
      have hsne : sorted ≠ [] := by
        intro h
        rw [h] at hslen
        simp at hslen
      refine ⟨BVHNode.internal BM L R, hbuild, ⟨hLwf, hRwf, ?_⟩, ?_, rfl⟩
      · rw [hLbounds, hRbounds, ← bigMerge_append cubes htne hdne, List.take_append_drop]
        exact (bigMerge_perm cubes hperm hsne).symm
      · show List.Perm (L.treeIndices ++ R.treeIndices) (idx0 :: idx1 :: rest)
        have heq : sorted.take mid ++ sorted.drop mid = sorted :=
          List.take_append_drop _ _
        refine (hLperm.append hRperm).trans ?_
        rw [heq]
        exact hperm

theorem wfTree_indices_lt (cubes : List Cube) :
    ∀ t : BVHNode, wfTree cubes t → ∀ i ∈ t.treeIndices, i < cubes.length := by
  intro t
  induction t with
  | leaf b i =>
    intro hw j hj
    rcases List.mem_singleton.mp hj with h
    rw [h]
    exact hw.1
  | internal b l r ihl ihr =>
    intro hw j hj
    rcases List.mem_append.mp hj with h | h
    · exact ihl hw.1 j h
    · exact ihr hw.2.1 j h

theorem wfTree_bounds_contains (cubes : List Cube) :
    ∀ t : BVHNode, wfTree cubes t →
      ∀ i ∈ t.treeIndices, boxContains t.nodeBounds (boxOf cubes i) := by
  intro t
  induction t with
  | leaf b i =>
    intro hw j hj
    rcases List.mem_singleton.mp hj with h
    rw [h, show (BVHNode.leaf b i).nodeBounds = b from rfl, hw.2]
    exact boxContains_refl _
  | internal b l r ihl ihr =>
    intro hw j hj
    rw [show (BVHNode.internal b l r).nodeBounds = b from rfl, hw.2.2]
    rcases List.mem_append.mp hj with h | h
    · exact boxContains_trans (merge_contains_left _ _) (ihl hw.1 j h)
    · exact boxContains_trans (merge_contains_right _ _) (ihr hw.2.1 j h)

theorem BVHNode.intersect_spec (cubes : List Cube) (o d : V3)
    (hdx : d.x ≠ 0) (hdy : d.y ≠ 0) (hdz : d.z ≠ 0)
    (hproper : ∀ c ∈ cubes, properBox (AABB.from_cube c)) :
    ∀ t : BVHNode, wfTree cubes t →
      (t.intersect cubes (V3.toF o) (V3.toF d) (V3.toF (invV d)) = Intersect.empty ∧
        ∀ i ∈ t.treeIndices, ¬ cubeHit (cubes.getD i defCube) o d) ∨
      (∃ i ∈ t.treeIndices,
        t.intersect cubes (V3.toF o) (V3.toF d) (V3.toF (invV d)) =
          (cubes.getD i defCube).ray_intersect (V3.toF o) (V3.toF d) ∧
        cubeHit (cubes.getD i defCube) o d ∧
        ∀ j ∈ t.treeIndices, cubeHit (cubes.getD j defCube) o d →
          cubeDist (cubes.getD i defCube) o d ≤ cubeDist (cubes.getD j defCube) o d) := by
  have hproperIdx : ∀ t : BVHNode, wfTree cubes t → ∀ i ∈ t.treeIndices,
      properBox (boxOf cubes i) := by
    intro t hw i hi
    have hlt := wfTree_indices_lt cubes t hw i hi
    have : cubes.getD i defCube ∈ cubes := by
      rw [List.getD_eq_getElem cubes defCube hlt]
      exact List.getElem_mem hlt
    exact hproper _ this
  have hhit_pass : ∀ i, cubeHit (cubes.getD i defCube) o d →
      passQ (boxOf cubes i) o (invV d) := by
    intro i h
    exact h.1
  intro t
  induction t with
  | leaf b i =>
    intro hw
    have hb : b = boxOf cubes i := hw.2
    show _ ∨ _
    rw [show BVHNode.intersect (BVHNode.leaf b i) cubes (V3.toF o) (V3.toF d)
        (V3.toF (invV d)) =
      (if b.intersect (V3.toF o) (V3.toF (invV d)) then
        (cubes.getD i defCube).ray_intersect (V3.toF o) (V3.toF d)
      else Intersect.empty) from rfl]
    by_cases hbox : b.intersect (V3.toF o) (V3.toF (invV d)) = true
    · rw [if_pos hbox]
      by_cases hhit : cubeHit (cubes.getD i defCube) o d
      · right
        refine ⟨i, List.mem_singleton.mpr rfl, rfl, hhit, ?_⟩
        intro j hj _
        rcases List.mem_singleton.mp hj with h
        rw [h]
      · left
        refine ⟨(Cube.ray_intersect_char _ o d hdx hdy hdz).2.2 hhit, ?_⟩
        intro j hj
        rcases List.mem_singleton.mp hj with h
        rw [h]
        exact hhit
    · rw [if_neg hbox]
      left
      refine ⟨rfl, ?_⟩
      intro j hj
      rcases List.mem_singleton.mp hj with h
      rw [h]
      intro hhit
      apply hbox
      rw [hb, AABB.intersect_true_iff]
      exact hhit.1
  | internal b l r ihl ihr =>
    intro hw
    obtain ⟨hwl, hwr, hb⟩ := hw
    have ihL := ihl hwl
    have ihR := ihr hwr
    show _ ∨ _
    by_cases hbox : b.intersect (V3.toF o) (V3.toF (invV d)) = true
    · rw [show BVHNode.intersect (BVHNode.internal b l r) cubes (V3.toF o) (V3.toF d)
          (V3.toF (invV d)) =
        (if !b.intersect (V3.toF o) (V3.toF (invV d)) then Intersect.empty
         else
          let left_hit := l.intersect cubes (V3.toF o) (V3.toF d) (V3.toF (invV d))
          let right_hit := r.intersect cubes (V3.toF o) (V3.toF d) (V3.toF (invV d))
          if left_hit.is_intersecting && right_hit.is_intersecting then
            if Fp.lt left_hit.distance right_hit.distance then left_hit else right_hit
          else if left_hit.is_intersecting then left_hit
          else right_hit) from rfl]
      rw [hbox]
      simp only [Bool.not_true, Bool.false_eq_true, if_false]
      rcases ihL with ⟨hLe, hLnone⟩ | ⟨iL, hiLmem, hLeq, hLhit, hLmin⟩
      · rcases ihR with ⟨hRe, hRnone⟩ | ⟨iR, hiRmem, hReq, hRhit, hRmin⟩
        · left
          rw [hLe, hRe]
          refine ⟨by simp [Intersect.empty], ?_⟩
          intro j hj
          rcases List.mem_append.mp hj with h | h
          · exact hLnone j h
          · exact hRnone j h
        · right
          have hLfalse : (l.intersect cubes (V3.toF o) (V3.toF d)
              (V3.toF (invV d))).is_intersecting = false := by
            rw [hLe]; rfl
          have hRtrue : (r.intersect cubes (V3.toF o) (V3.toF d)
              (V3.toF (invV d))).is_intersecting = true := by
            rw [hReq]
            exact ((Cube.ray_intersect_char _ o d hdx hdy hdz).1).mpr hRhit
          rw [hLfalse]
          simp only [Bool.false_and, Bool.false_eq_true, if_false]
          refine ⟨iR, List.mem_append.mpr (Or.inr hiRmem), hReq, hRhit, ?_⟩
          intro j hj hjh
          rcases List.mem_append.mp hj with h | h
          · exact absurd hjh (hLnone j h)
          · exact hRmin j h hjh
      · rcases ihR with ⟨hRe, hRnone⟩ | ⟨iR, hiRmem, hReq, hRhit, hRmin⟩
        · right
          have hLtrue : (l.intersect cubes (V3.toF o) (V3.toF d)
              (V3.toF (invV d))).is_intersecting = true := by
            rw [hLeq]
            exact ((Cube.ray_intersect_char _ o d hdx hdy hdz).1).mpr hLhit
          have hRfalse : (r.intersect cubes (V3.toF o) (V3.toF d)
              (V3.toF (invV d))).is_intersecting = false := by
            rw [hRe]; rfl
          rw [hLtrue, hRfalse]
          simp only [Bool.true_and, Bool.false_eq_true, if_false, if_true]
          refine ⟨iL, List.mem_append.mpr (Or.inl hiLmem), hLeq, hLhit, ?_⟩
          intro j hj hjh
          rcases List.mem_append.mp hj with h | h
          · exact hLmin j h hjh
          · exact absurd hjh (hRnone j h)
        · have hLtrue : (l.intersect cubes (V3.toF o) (V3.toF d)
              (V3.toF (invV d))).is_intersecting = true := by
            rw [hLeq]
            exact ((Cube.ray_intersect_char _ o d hdx hdy hdz).1).mpr hLhit
          have hRtrue : (r.intersect cubes (V3.toF o) (V3.toF d)
              (V3.toF (invV d))).is_intersecting = true := by
            rw [hReq]
            exact ((Cube.ray_intersect_char _ o d hdx hdy hdz).1).mpr hRhit
          have hLdist : (l.intersect cubes (V3.toF o) (V3.toF d)
              (V3.toF (invV d))).distance = Fp.fin (cubeDist (cubes.getD iL defCube) o d) := by
            rw [hLeq, (Cube.ray_intersect_char _ o d hdx hdy hdz).2.1, if_pos hLhit]
          have hRdist : (r.intersect cubes (V3.toF o) (V3.toF d)
              (V3.toF (invV d))).distance = Fp.fin (cubeDist (cubes.getD iR defCube) o d) := by
            rw [hReq, (Cube.ray_intersect_char _ o d hdx hdy hdz).2.1, if_pos hRhit]
          rw [hLtrue, hRtrue]
          simp only [Bool.and_self, if_true]
          rw [hLdist, hRdist, Fp.lt_fin_fin]
          by_cases hcmp : cubeDist (cubes.getD iL defCube) o d
              < cubeDist (cubes.getD iR defCube) o d
          · right
            rw [if_pos (by simpa using hcmp)]
            refine ⟨iL, List.mem_append.mpr (Or.inl hiLmem), hLeq, hLhit, ?_⟩
            intro j hj hjh
            rcases List.mem_append.mp hj with h | h
            · exact hLmin j h hjh
            · exact le_trans hcmp.le (hRmin j h hjh)
          · right
            rw [if_neg (by simpa using hcmp)]
            refine ⟨iR, List.mem_append.mpr (Or.inr hiRmem), hReq, hRhit, ?_⟩
            intro j hj hjh
            rcases List.mem_append.mp hj with h | h
            · exact le_trans (not_lt.mp hcmp) (hLmin j h hjh)
            · exact hRmin j h hjh
    · rw [show BVHNode.intersect (BVHNode.internal b l r) cubes (V3.toF o) (V3.toF d)
          (V3.toF (invV d)) =
        (if !b.intersect (V3.toF o) (V3.toF (invV d)) then Intersect.empty
         else
          let left_hit := l.intersect cubes (V3.toF o) (V3.toF d) (V3.toF (invV d))
          let right_hit := r.intersect cubes (V3.toF o) (V3.toF d) (V3.toF (invV d))
          if left_hit.is_intersecting && right_hit.is_intersecting then
            if Fp.lt left_hit.distance right_hit.distance then left_hit else right_hit
          else if left_hit.is_intersecting then left_hit
          else right_hit) from rfl]
      rw [Bool.eq_false_iff.mpr hbox]
      left
      refine ⟨rfl, ?_⟩
      intro j hj hhit
      apply hbox
      rw [AABB.intersect_true_iff]
      have hcontain : boxContains b (boxOf cubes j) := by
        have := wfTree_bounds_contains cubes (BVHNode.internal b l r) ⟨hwl, hwr, hb⟩ j hj
        exact this
      exact passQ_mono hcontain
        (hproperIdx (BVHNode.internal b l r) ⟨hwl, hwr, hb⟩ j hj) o (invV d) hhit.1

theorem cast_ray_eq_castRayFuel (caps : Caps) (bvh : BVHNode) (objects : List Cube)
    (lights : List Light) (skybox : Option String) :
    ∀ fuel depth, 3 - depth ≤ fuel → ∀ o dvec,
      cast_ray caps o dvec bvh objects lights depth skybox
        = castRayFuel caps fuel o dvec bvh objects lights depth skybox := by
  intro fuel
  induction fuel with
  | zero =>
    intro depth h o dvec
    have hd : 2 < depth := by omega
    rw [cast_ray]
    rw [dif_pos hd]
    rfl
  | succ f ih =>
    intro depth h o dvec
    rw [cast_ray, castRayFuel]
    by_cases hd : 2 < depth
    · rw [dif_pos hd, if_pos hd]
    · rw [dif_neg hd, if_neg hd]
      have hrec : ∀ o2 d2, cast_ray caps o2 d2 bvh objects lights (depth + 1) skybox
          = castRayFuel caps f o2 d2 bvh objects lights (depth + 1) skybox :=
        fun o2 d2 => ih (depth + 1) (by omega) o2 d2
      simp only [hrec]


theorem Fp.mul_one_right (a : Fp) : a * Fp.fin 1 = a := by
  cases a <;> simp

theorem Fp.add_zero_right (a : Fp) : a + Fp.fin 0 = a := by
  cases a <;> simp

theorem Vec3.smul_def (v : Vec3) (s : Fp) : v * s = ⟨v.x * s, v.y * s, v.z * s⟩ := rfl

theorem Vec3.add_def (a b : Vec3) : a + b = ⟨a.x + b.x, a.y + b.y, a.z + b.z⟩ := rfl

/-- C7: `refract` with refractive index `1.0` returns the incident
direction unchanged, and a negative discriminant (total internal
reflection) yields the zero vector.  The square-root capability is assumed
exact on perfect squares, which is all the identity case consults. -/
theorem refract_unit_index_and_tir (caps : Caps) (incident : Vec3)
    (nx ny nz : ℚ) (refractive_index : ℚ)
    (hsqrt : ∀ c : ℚ, 0 ≤ c → caps.sqrt (Fp.fin (c * c)) = Fp.fin c) :
    refract caps incident ⟨Fp.fin nx, Fp.fin ny, Fp.fin nz⟩ 1 = incident ∧
      (Fp.lt (refractDiscriminant incident ⟨Fp.fin nx, Fp.fin ny, Fp.fin nz⟩
          refractive_index) (fq 0) = true →
        refract caps incident ⟨Fp.fin nx, Fp.fin ny, Fp.fin nz⟩ refractive_index
          = Vec3.zero) := by
  constructor
  · obtain ⟨c, hc, hc1, hc2⟩ : ∃ c : ℚ,
        Fp.minF (Fp.maxF (Vec3.dot incident ⟨Fp.fin nx, Fp.fin ny, Fp.fin nz⟩)
          (fq (-1))) (fq 1) = Fp.fin c ∧ -1 ≤ c ∧ c ≤ 1 := by
      rcases hdot : Vec3.dot incident ⟨Fp.fin nx, Fp.fin ny, Fp.fin nz⟩ with _ | _ | _ | a
      · exact ⟨-1, by norm_num, by norm_num, by norm_num⟩
      · exact ⟨-1, by norm_num, by norm_num, by norm_num⟩
      · exact ⟨1, by norm_num, by norm_num, by norm_num⟩
      · by_cases h1 : a < -1
        · refine ⟨-1, ?_, by norm_num, by norm_num⟩
          simp [h1, show ¬ (1 : ℚ) < -1 by norm_num]
        · by_cases h2 : 1 < a
          · refine ⟨1, ?_, by norm_num, by norm_num⟩
            simp [h1, h2]
          · refine ⟨a, ?_, by linarith [not_lt.mp h1], not_lt.mp h2⟩
            simp [h1, h2]
    rw [refract, hc]
    simp only [fq_eq, Fp.lt_fin_fin, decide_eq_true_eq]
    by_cases hcpos : 0 < c
    · simp only [if_pos hcpos, Fp.sub_eq, Fp.div_fin_fin, one_ne_zero, if_false,
        Fp.neg_fin, Fp.mul_fin_fin, Fp.add_fin_fin]
      have harg : (1 : ℚ) + -(1 / 1 * (1 / 1) * (1 + -(c * c))) = c * c := by ring
      rw [harg, hsqrt c hcpos.le]
      rw [if_neg (by simp only [Fp.lt_fin_fin, decide_eq_true_eq, not_lt]; nlinarith)]
      rw [Vec3.smul_def incident, Vec3.neg_mk, Vec3.smul_def]
      simp only [Fp.sub_eq, Fp.neg_fin, Fp.mul_fin_fin, Fp.add_fin_fin]
      have hfac : (1 : ℚ) / 1 * c + -c = 0 := by ring
      rw [hfac]
      simp only [Vec3.add_def, mul_zero, one_div, inv_one]
      simp only [Fp.mul_one_right, Fp.add_zero_right]
    · simp only [if_neg hcpos, Fp.sub_eq, Fp.div_fin_fin, one_ne_zero, if_false,
        Fp.neg_fin, Fp.mul_fin_fin, Fp.add_fin_fin]
      have harg : (1 : ℚ) + -(1 / 1 * (1 / 1) * (1 + -(-c * -c))) = -c * -c := by ring
      rw [harg, hsqrt (-c) (by linarith [not_lt.mp hcpos])]
      rw [if_neg (by simp only [Fp.lt_fin_fin, decide_eq_true_eq, not_lt]; nlinarith)]
      rw [Vec3.smul_def incident, Vec3.smul_def]
      simp only [Fp.sub_eq, Fp.neg_fin, Fp.mul_fin_fin, Fp.add_fin_fin]
      have hfac : (1 : ℚ) / 1 * -c + -(-c) = 0 := by ring
      rw [hfac]
      simp only [Vec3.add_def, mul_zero, one_div, inv_one]
      simp only [Fp.mul_one_right, Fp.add_zero_right]
  · intro hneg
    rw [refract, refractDiscriminant] at *
    rw [if_pos hneg]

/-- Sample instantiation of the capability record used by the closed
witnesses: the square root is exact on perfect squares (via `Rat.sqrt`),
the remaining capabilities are simple total stubs. -/
def ratCaps : Caps where
  sqrt := fun x => match x with
    | Fp.fin a => if a < 0 then Fp.nan else Fp.fin (Rat.sqrt a)
    | Fp.pinf => Fp.pinf
    | _ => Fp.nan
  powf := fun _ _ => Fp.fin 1
  atan2 := fun _ _ => Fp.fin 0
  asin := fun _ => Fp.fin 0
  hasTexture := fun _ => false
  texWidth := fun _ => 0
  texHeight := fun _ => 0
  getPixelColor := fun _ _ _ => ⟨1, 1, 1⟩

theorem ratCaps_sqrt_sq : ∀ c : ℚ, 0 ≤ c → ratCaps.sqrt (Fp.fin (c * c)) = Fp.fin c := by
  intro c hc
  show (if c * c < 0 then Fp.nan else Fp.fin (Rat.sqrt (c * c))) = Fp.fin c
  rw [if_neg (by nlinarith), Rat.sqrt_eq, abs_of_nonneg hc]

/-- Witness for C7 at a concrete incident direction and unit normal. -/
theorem refract_unit_index_and_tir_witness :
    refract ratCaps ⟨Fp.fin (3/5), Fp.fin (-4/5), Fp.fin 0⟩
        ⟨Fp.fin 0, Fp.fin 1, Fp.fin 0⟩ 1
      = ⟨Fp.fin (3/5), Fp.fin (-4/5), Fp.fin 0⟩ ∧
    (Fp.lt (refractDiscriminant ⟨Fp.fin (3/5), Fp.fin (-4/5), Fp.fin 0⟩
        ⟨Fp.fin 0, Fp.fin 1, Fp.fin 0⟩ (3/2)) (fq 0) = true →
      refract ratCaps ⟨Fp.fin (3/5), Fp.fin (-4/5), Fp.fin 0⟩
        ⟨Fp.fin 0, Fp.fin 1, Fp.fin 0⟩ (3/2) = Vec3.zero) :=
  refract_unit_index_and_tir ratCaps ⟨Fp.fin (3/5), Fp.fin (-4/5), Fp.fin 0⟩
    0 1 0 (3/2) ratCaps_sqrt_sq

/-- Strict interior test of a box against a point, used to state the
specification's "ray origin is inside the box" condition. -/
def originInside (c : Cube) (o : V3) : Prop :=
  c.min_bounds.x < o.x ∧ o.x < c.max_bounds.x ∧
    c.min_bounds.y < o.y ∧ o.y < c.max_bounds.y ∧
    c.min_bounds.z < o.z ∧ o.z < c.max_bounds.z

/-- C5 (amended): whenever `Cube::ray_intersect` returns a populated hit,
the slab phase succeeded, the reported distance is the final entry
parameter `tmin` when `tmin > 0.001` and the final exit parameter `tmax`
otherwise, and the self-intersection guard `distance < 0.001` is false
(so every populated finite distance is at least `0.001`). -/
theorem cube_ray_intersect_distance (c : Cube) (o d : Vec3)
    (h : (c.ray_intersect o d).is_intersecting = true) :
    (c.slabParams o d).isSome = true ∧
    (c.ray_intersect o d).distance =
      (c.slabParams o d).elim (fq 0)
        (fun p => if Fp.lt (fq (1/1000)) p.1 = true then p.1 else p.2) ∧
    Fp.lt (c.ray_intersect o d).distance (fq (1/1000)) = false := by
  rcases hsp : c.slabParams o d with _ | ⟨tmin, tmax⟩
  · exfalso
    unfold Cube.ray_intersect at h
    rw [hsp] at h
    simp [Intersect.empty] at h
  · unfold Cube.ray_intersect at h ⊢
    rw [hsp] at h ⊢
    by_cases hg : Fp.lt (if Fp.lt (fq (1/1000)) tmin = true then tmin else tmax)
        (fq (1/1000)) = true
    · exfalso
      simp only [hg, if_true, Intersect.empty] at h
      exact absurd h (by simp)
    · rw [Bool.not_eq_true] at hg
      simp only [hg, Bool.false_eq_true, if_false]
      exact ⟨rfl, rfl, hg⟩

/-- Concrete cube used by the C5 witness and counterexample. -/
def cubeC5 : Cube := ⟨⟨0, 0, 0⟩, ⟨10, 10, 10⟩, Material.black⟩

/-- Witness for the amended C5 at a concrete populated intersection. -/
theorem cube_ray_intersect_distance_witness :
    (cubeC5.ray_intersect (V3.toF ⟨4, 5, 5⟩) (V3.toF ⟨1, 1, 1⟩)).is_intersecting = true ∧
    ((cubeC5.slabParams (V3.toF ⟨4, 5, 5⟩) (V3.toF ⟨1, 1, 1⟩)).isSome = true ∧
      (cubeC5.ray_intersect (V3.toF ⟨4, 5, 5⟩) (V3.toF ⟨1, 1, 1⟩)).distance =
        (cubeC5.slabParams (V3.toF ⟨4, 5, 5⟩) (V3.toF ⟨1, 1, 1⟩)).elim (fq 0)
          (fun p => if Fp.lt (fq (1/1000)) p.1 = true then p.1 else p.2) ∧
      Fp.lt (cubeC5.ray_intersect (V3.toF ⟨4, 5, 5⟩) (V3.toF ⟨1, 1, 1⟩)).distance
        (fq (1/1000)) = false) := by
  have h : (cubeC5.ray_intersect (V3.toF ⟨4, 5, 5⟩) (V3.toF ⟨1, 1, 1⟩)).is_intersecting
      = true := by
    norm_num [Cube.ray_intersect, Cube.slabParams, cubeC5, Cube.faceNormal, Cube.get_uv,
      Intersect.new]
  exact ⟨h, cube_ray_intersect_distance cubeC5 _ _ h⟩

/-- Counterexample to C5 as stated: a ray whose origin is just outside
the box (within the `0.001` guard of the entry face) is populated with
`distance = tmax`, although the entry parameter `tmin = 1/2000` is the
smallest positive slab root and the origin is not inside the box. -/
theorem cube_distance_claim_counterexample :
    (cubeC5.ray_intersect (V3.toF ⟨-1/2000, 5, 5⟩) (V3.toF ⟨1, 1, 1⟩)).is_intersecting
        = true ∧
    cubeEnter cubeC5 ⟨-1/2000, 5, 5⟩ ⟨1, 1, 1⟩ = 1/2000 ∧
    (0 : ℚ) < 1/2000 ∧
    (cubeC5.ray_intersect (V3.toF ⟨-1/2000, 5, 5⟩) (V3.toF ⟨1, 1, 1⟩)).distance
        = Fp.fin 5 ∧
    (cubeC5.ray_intersect (V3.toF ⟨-1/2000, 5, 5⟩) (V3.toF ⟨1, 1, 1⟩)).distance
        ≠ Fp.fin (cubeEnter cubeC5 ⟨-1/2000, 5, 5⟩ ⟨1, 1, 1⟩) ∧
    ¬ originInside cubeC5 ⟨-1/2000, 5, 5⟩ := by
  refine ⟨?_, ?_, by norm_num, ?_, ?_, ?_⟩
  · norm_num [Cube.ray_intersect, Cube.slabParams, cubeC5, Cube.faceNormal, Cube.get_uv,
      Intersect.new]
  · norm_num [cubeEnter, slabEnter, loQ, hiQ, AABB.from_cube, invV, cubeC5]
  · norm_num [Cube.ray_intersect, Cube.slabParams, cubeC5, Cube.faceNormal, Cube.get_uv,
      Intersect.new]
  · norm_num [Cube.ray_intersect, Cube.slabParams, cubeC5, Cube.faceNormal, Cube.get_uv,
      Intersect.new, cubeEnter, slabEnter, loQ, hiQ, AABB.from_cube, invV]
  · norm_num [originInside, cubeC5]

/-- Componentwise `1.0 / direction` as every caller of the slab tests
computes it. -/
def inverseDir (v : Vec3) : Vec3 := ⟨fq 1 / v.x, fq 1 / v.y, fq 1 / v.z⟩

theorem AABB.intersect_axis_x (A : AABB) (ox oy oz : ℚ) (vx : Fp)
    (hy1 : A.min.y < oy) (hy2 : oy < A.max.y)
    (hz1 : A.min.z < oz) (hz2 : oz < A.max.z) :
    A.intersect ⟨Fp.fin ox, Fp.fin oy, Fp.fin oz⟩ ⟨vx, Fp.pinf, Fp.pinf⟩ = true := by
  have hyM : ¬ A.max.y < oy := by linarith
  have hyM0 : A.max.y ≠ oy := by intro h; linarith
  have hzM : ¬ A.max.z < oz := by linarith
  have hzM0 : A.max.z ≠ oz := by intro h; linarith
  unfold AABB.intersect
  simp only [fq_eq, Fp.sub_eq, Fp.neg_fin, Fp.add_fin_fin, Fp.mul_fin_pinf,
    ← sub_eq_add_neg, sub_neg, sub_eq_zero, hy1, hz1, hyM, hyM0, hzM, hzM0,
    if_true, if_false,
    Fp.lt_pinf_ninf, Fp.lt_ninf_pinf, Fp.lt_pinf_pinf, Fp.lt_ninf_ninf,
    Bool.false_or, Bool.or_false, Bool.or_self]
  generalize (Fp.fin (A.min.x - ox) * vx) = p
  generalize (Fp.fin (A.max.x - ox) * vx) = q
  rcases p with _ | _ | _ | a <;> rcases q with _ | _ | _ | b <;>
    simp [Fp.lt] <;> split_ifs <;> simp_all [Fp.lt]

theorem AABB.intersect_axis_y (A : AABB) (ox oy oz : ℚ) (vy : Fp)
    (hx1 : A.min.x < ox) (hx2 : ox < A.max.x)
    (hz1 : A.min.z < oz) (hz2 : oz < A.max.z) :
    A.intersect ⟨Fp.fin ox, Fp.fin oy, Fp.fin oz⟩ ⟨Fp.pinf, vy, Fp.pinf⟩ = true := by
  have hxM : ¬ A.max.x < ox := by linarith
  have hxM0 : A.max.x ≠ ox := by intro h; linarith
  have hzM : ¬ A.max.z < oz := by linarith
  have hzM0 : A.max.z ≠ oz := by intro h; linarith
  unfold AABB.intersect
  simp only [fq_eq, Fp.sub_eq, Fp.neg_fin, Fp.add_fin_fin, Fp.mul_fin_pinf,
    ← sub_eq_add_neg, sub_neg, sub_eq_zero, hx1, hz1, hxM, hxM0, hzM, hzM0,
    if_true, if_false,
    Fp.lt_pinf_ninf, Fp.lt_ninf_pinf, Fp.lt_pinf_pinf, Fp.lt_ninf_ninf,
    Bool.false_or, Bool.or_false, Bool.or_self]
  generalize (Fp.fin (A.min.y - oy) * vy) = p
  generalize (Fp.fin (A.max.y - oy) * vy) = q
  rcases p with _ | _ | _ | a <;> rcases q with _ | _ | _ | b <;>
    simp [Fp.lt] <;> split_ifs <;> simp_all [Fp.lt]

theorem AABB.intersect_axis_z (A : AABB) (ox oy oz : ℚ) (vz : Fp)
    (hx1 : A.min.x < ox) (hx2 : ox < A.max.x)
    (hy1 : A.min.y < oy) (hy2 : oy < A.max.y) :
    A.intersect ⟨Fp.fin ox, Fp.fin oy, Fp.fin oz⟩ ⟨Fp.pinf, Fp.pinf, vz⟩ = true := by
  have hxM : ¬ A.max.x < ox := by linarith
  have hxM0 : A.max.x ≠ ox := by intro h; linarith
  have hyM : ¬ A.max.y < oy := by linarith
  have hyM0 : A.max.y ≠ oy := by intro h; linarith
  unfold AABB.intersect
  simp only [fq_eq, Fp.sub_eq, Fp.neg_fin, Fp.add_fin_fin, Fp.mul_fin_pinf,
    ← sub_eq_add_neg, sub_neg, sub_eq_zero, hx1, hy1, hxM, hxM0, hyM, hyM0,
    if_true, if_false,
    Fp.lt_pinf_ninf, Fp.lt_ninf_pinf, Fp.lt_pinf_pinf, Fp.lt_ninf_ninf,
    Bool.false_or, Bool.or_false, Bool.or_self]
  generalize (Fp.fin (A.min.z - oz) * vz) = p
  generalize (Fp.fin (A.max.z - oz) * vz) = q
  rcases p with _ | _ | _ | a <;> rcases q with _ | _ | _ | b <;>
    simp [Fp.lt] <;> split_ifs <;> simp_all [Fp.lt]

/-- A coordinate axis, to quantify over the three axes of the slab test. -/
inductive Axis where
  | x
  | y
  | z
deriving DecidableEq

/-- The axis-aligned f32 direction with driving component `s` and the other
two components `0.0`. -/
def Axis.dirF : Axis → ℚ → Vec3
  | .x, s => ⟨Fp.fin s, Fp.fin 0, Fp.fin 0⟩
  | .y, s => ⟨Fp.fin 0, Fp.fin s, Fp.fin 0⟩
  | .z, s => ⟨Fp.fin 0, Fp.fin 0, Fp.fin s⟩

/-- Lower bound of a cube along an axis. -/
def Axis.loB : Axis → Cube → ℚ
  | .x, c => c.min_bounds.x
  | .y, c => c.min_bounds.y
  | .z, c => c.min_bounds.z

/-- Upper bound of a cube along an axis. -/
def Axis.hiB : Axis → Cube → ℚ
  | .x, c => c.max_bounds.x
  | .y, c => c.max_bounds.y
  | .z, c => c.max_bounds.z

/-- The f32 point whose driving coordinate is `o` and whose other two
coordinates sit at the cube's exact center, so that a ray from it along the
axis passes through the center of the cube. -/
def Axis.originAt : Axis → Cube → ℚ → Vec3
  | .x, c, o => ⟨Fp.fin o, Fp.fin ((c.min_bounds.y + c.max_bounds.y) / 2),
      Fp.fin ((c.min_bounds.z + c.max_bounds.z) / 2)⟩
  | .y, c, o => ⟨Fp.fin ((c.min_bounds.x + c.max_bounds.x) / 2), Fp.fin o,
      Fp.fin ((c.min_bounds.z + c.max_bounds.z) / 2)⟩
  | .z, c, o => ⟨Fp.fin ((c.min_bounds.x + c.max_bounds.x) / 2),
      Fp.fin ((c.min_bounds.y + c.max_bounds.y) / 2), Fp.fin o⟩

theorem Cube.slabParams_axis_x (c : Cube) (ox oy oz s : ℚ) (hs : s ≠ 0)
    (hy1 : c.min_bounds.y < oy) (hy2 : oy < c.max_bounds.y)
    (hz1 : c.min_bounds.z < oz) (hz2 : oz < c.max_bounds.z) :
    c.slabParams ⟨Fp.fin ox, Fp.fin oy, Fp.fin oz⟩ ⟨Fp.fin s, Fp.fin 0, Fp.fin 0⟩ =
      some (Fp.fin (loQ c.min_bounds.x c.max_bounds.x ox (1/s)),
            Fp.fin (hiQ c.min_bounds.x c.max_bounds.x ox (1/s))) := by
  have hy1' : c.min_bounds.y - oy < 0 := by linarith
  have hy2' : ¬ c.max_bounds.y - oy < 0 := by linarith
  have hy2Z : c.max_bounds.y - oy ≠ 0 := sub_ne_zero.mpr (ne_of_gt hy2)
  have hz1' : c.min_bounds.z - oz < 0 := by linarith
  have hz2' : ¬ c.max_bounds.z - oz < 0 := by linarith
  have hz2Z : c.max_bounds.z - oz ≠ 0 := sub_ne_zero.mpr (ne_of_gt hz2)
  have h10 : ¬ (1:ℚ) < 0 := by norm_num
  unfold Cube.slabParams
  simp [fq_eq, hs, h10, hy1', hy2', hy2Z, hz1', hz2', hz2Z, ite_fin, ite_lt_min, ite_lt_max,
    loQ, hiQ, ← sub_eq_add_neg]

theorem Cube.slabParams_axis_y (c : Cube) (ox oy oz s : ℚ) (hs : s ≠ 0)
    (hx1 : c.min_bounds.x < ox) (hx2 : ox < c.max_bounds.x)
    (hz1 : c.min_bounds.z < oz) (hz2 : oz < c.max_bounds.z) :
    c.slabParams ⟨Fp.fin ox, Fp.fin oy, Fp.fin oz⟩ ⟨Fp.fin 0, Fp.fin s, Fp.fin 0⟩ =
      some (Fp.fin (loQ c.min_bounds.y c.max_bounds.y oy (1/s)),
            Fp.fin (hiQ c.min_bounds.y c.max_bounds.y oy (1/s))) := by
  have hx1' : c.min_bounds.x - ox < 0 := by linarith
  have hx2' : ¬ c.max_bounds.x - ox < 0 := by linarith
  have hx2Z : c.max_bounds.x - ox ≠ 0 := sub_ne_zero.mpr (ne_of_gt hx2)
  have hz1' : c.min_bounds.z - oz < 0 := by linarith
  have hz2' : ¬ c.max_bounds.z - oz < 0 := by linarith
  have hz2Z : c.max_bounds.z - oz ≠ 0 := sub_ne_zero.mpr (ne_of_gt hz2)
  have h10 : ¬ (1:ℚ) < 0 := by norm_num
  unfold Cube.slabParams
  simp [fq_eq, hs, h10, hx1', hx2', hx2Z, hz1', hz2', hz2Z, ite_fin, ite_lt_min, ite_lt_max,
    loQ, hiQ, ← sub_eq_add_neg]

theorem Cube.slabParams_axis_z (c : Cube) (ox oy oz s : ℚ) (hs : s ≠ 0)
    (hx1 : c.min_bounds.x < ox) (hx2 : ox < c.max_bounds.x)
    (hy1 : c.min_bounds.y < oy) (hy2 : oy < c.max_bounds.y) :
    c.slabParams ⟨Fp.fin ox, Fp.fin oy, Fp.fin oz⟩ ⟨Fp.fin 0, Fp.fin 0, Fp.fin s⟩ =
      some (Fp.fin (loQ c.min_bounds.z c.max_bounds.z oz (1/s)),
            Fp.fin (hiQ c.min_bounds.z c.max_bounds.z oz (1/s))) := by
  have hx1' : c.min_bounds.x - ox < 0 := by linarith
  have hx2' : ¬ c.max_bounds.x - ox < 0 := by linarith
  have hx2Z : c.max_bounds.x - ox ≠ 0 := sub_ne_zero.mpr (ne_of_gt hx2)
  have hy1' : c.min_bounds.y - oy < 0 := by linarith
  have hy2' : ¬ c.max_bounds.y - oy < 0 := by linarith
  have hy2Z : c.max_bounds.y - oy ≠ 0 := sub_ne_zero.mpr (ne_of_gt hy2)
  have h10 : ¬ (1:ℚ) < 0 := by norm_num
  unfold Cube.slabParams
  simp [fq_eq, hs, h10, hx1', hx2', hx2Z, hy1', hy2', hy2Z, ite_fin, ite_lt_min, ite_lt_max,
    loQ, hiQ, ← sub_eq_add_neg]

theorem slabC6x (c : Cube) (o s : ℚ) (hs : s ≠ 0)
    (hpy : c.min_bounds.y < c.max_bounds.y)
    (hpz : c.min_bounds.z < c.max_bounds.z) :
    (1/1000 < loQ c.min_bounds.x c.max_bounds.x o (1/s) →
      (AABB.from_cube c).intersect (Axis.originAt Axis.x c o)
          (inverseDir (Axis.dirF Axis.x s)) = true ∧
      (c.ray_intersect (Axis.originAt Axis.x c o) (Axis.dirF Axis.x s)).is_intersecting
          = true ∧
      (c.ray_intersect (Axis.originAt Axis.x c o) (Axis.dirF Axis.x s)).distance
          = Fp.fin (loQ c.min_bounds.x c.max_bounds.x o (1/s))) ∧
    (hiQ c.min_bounds.x c.max_bounds.x o (1/s) < 0 →
      (c.ray_intersect (Axis.originAt Axis.x c o) (Axis.dirF Axis.x s)).is_intersecting
          = false ∧
      (AABB.from_cube c).intersect (Axis.originAt Axis.x c o)
          (inverseDir (Axis.dirF Axis.x s)) = true) := by
  have hy1 : c.min_bounds.y < (c.min_bounds.y + c.max_bounds.y) / 2 := by linarith
  have hy2 : (c.min_bounds.y + c.max_bounds.y) / 2 < c.max_bounds.y := by linarith
  have hz1 : c.min_bounds.z < (c.min_bounds.z + c.max_bounds.z) / 2 := by linarith
  have hz2 : (c.min_bounds.z + c.max_bounds.z) / 2 < c.max_bounds.z := by linarith
  have h10 : ¬ (1:ℚ) < 0 := by norm_num
  have hinv : inverseDir (Axis.dirF Axis.x s) = ⟨Fp.fin (1/s), Fp.pinf, Fp.pinf⟩ := by
    simp [inverseDir, Axis.dirF, fq_eq, hs, h10]
  have horig : Axis.originAt Axis.x c o =
      ⟨Fp.fin o, Fp.fin ((c.min_bounds.y + c.max_bounds.y) / 2),
        Fp.fin ((c.min_bounds.z + c.max_bounds.z) / 2)⟩ := rfl
  have haabb : (AABB.from_cube c).intersect (Axis.originAt Axis.x c o)
      (inverseDir (Axis.dirF Axis.x s)) = true := by
    rw [horig, hinv]
    exact AABB.intersect_axis_x (AABB.from_cube c) o _ _ (Fp.fin (1/s)) hy1 hy2 hz1 hz2
  have hsp : c.slabParams (Axis.originAt Axis.x c o) (Axis.dirF Axis.x s) =
      some (Fp.fin (loQ c.min_bounds.x c.max_bounds.x o (1/s)),
            Fp.fin (hiQ c.min_bounds.x c.max_bounds.x o (1/s))) := by
    rw [horig, show Axis.dirF Axis.x s = ⟨Fp.fin s, Fp.fin 0, Fp.fin 0⟩ from rfl]
    exact Cube.slabParams_axis_x c o _ _ s hs hy1 hy2 hz1 hz2
  constructor
  · intro h1
    refine ⟨haabb, ?_⟩
    have hc : (1000:ℚ)⁻¹ < loQ c.min_bounds.x c.max_bounds.x o s⁻¹ := by
      simp only [← one_div]
      linarith
    have hg : ¬ loQ c.min_bounds.x c.max_bounds.x o s⁻¹ < (1000:ℚ)⁻¹ :=
      not_lt.mpr hc.le
    unfold Cube.ray_intersect
    rw [hsp]
    simp [hc, hg, Intersect.new]
  · intro h2
    refine ⟨?_, haabb⟩
    have hle : loQ c.min_bounds.x c.max_bounds.x o (1/s)
        ≤ hiQ c.min_bounds.x c.max_bounds.x o (1/s) := min_le_max
    have hc : ¬ (1000:ℚ)⁻¹ < loQ c.min_bounds.x c.max_bounds.x o s⁻¹ := by
      simp only [← one_div]
      linarith
    have hg : hiQ c.min_bounds.x c.max_bounds.x o s⁻¹ < (1000:ℚ)⁻¹ := by
      simp only [← one_div]
      linarith
    unfold Cube.ray_intersect
    rw [hsp]
    simp [hc, hg, Intersect.empty]

theorem slabC6y (c : Cube) (o s : ℚ) (hs : s ≠ 0)
    (hpx : c.min_bounds.x < c.max_bounds.x)
    (hpz : c.min_bounds.z < c.max_bounds.z) :
    (1/1000 < loQ c.min_bounds.y c.max_bounds.y o (1/s) →
      (AABB.from_cube c).intersect (Axis.originAt Axis.y c o)
          (inverseDir (Axis.dirF Axis.y s)) = true ∧
      (c.ray_intersect (Axis.originAt Axis.y c o) (Axis.dirF Axis.y s)).is_intersecting
          = true ∧
      (c.ray_intersect (Axis.originAt Axis.y c o) (Axis.dirF Axis.y s)).distance
          = Fp.fin (loQ c.min_bounds.y c.max_bounds.y o (1/s))) ∧
    (hiQ c.min_bounds.y c.max_bounds.y o (1/s) < 0 →
      (c.ray_intersect (Axis.originAt Axis.y c o) (Axis.dirF Axis.y s)).is_intersecting
          = false ∧
      (AABB.from_cube c).intersect (Axis.originAt Axis.y c o)
          (inverseDir (Axis.dirF Axis.y s)) = true) := by
  have hx1 : c.min_bounds.x < (c.min_bounds.x + c.max_bounds.x) / 2 := by linarith
  have hx2 : (c.min_bounds.x + c.max_bounds.x) / 2 < c.max_bounds.x := by linarith
  have hz1 : c.min_bounds.z < (c.min_bounds.z + c.max_bounds.z) / 2 := by linarith
  have hz2 : (c.min_bounds.z + c.max_bounds.z) / 2 < c.max_bounds.z := by linarith
  have h10 : ¬ (1:ℚ) < 0 := by norm_num
  have hinv : inverseDir (Axis.dirF Axis.y s) = ⟨Fp.pinf, Fp.fin (1/s), Fp.pinf⟩ := by
    simp [inverseDir, Axis.dirF, fq_eq, hs, h10]
  have horig : Axis.originAt Axis.y c o =
      ⟨Fp.fin ((c.min_bounds.x + c.max_bounds.x) / 2), Fp.fin o,
        Fp.fin ((c.min_bounds.z + c.max_bounds.z) / 2)⟩ := rfl
  have haabb : (AABB.from_cube c).intersect (Axis.originAt Axis.y c o)
      (inverseDir (Axis.dirF Axis.y s)) = true := by
    rw [horig, hinv]
    exact AABB.intersect_axis_y (AABB.from_cube c) _ o _ (Fp.fin (1/s)) hx1 hx2 hz1 hz2
  have hsp : c.slabParams (Axis.originAt Axis.y c o) (Axis.dirF Axis.y s) =
      some (Fp.fin (loQ c.min_bounds.y c.max_bounds.y o (1/s)),
            Fp.fin (hiQ c.min_bounds.y c.max_bounds.y o (1/s))) := by
    rw [horig, show Axis.dirF Axis.y s = ⟨Fp.fin 0, Fp.fin s, Fp.fin 0⟩ from rfl]
    exact Cube.slabParams_axis_y c _ o _ s hs hx1 hx2 hz1 hz2
  constructor
  · intro h1
    refine ⟨haabb, ?_⟩
    have hc : (1000:ℚ)⁻¹ < loQ c.min_bounds.y c.max_bounds.y o s⁻¹ := by
      simp only [← one_div]
      linarith
    have hg : ¬ loQ c.min_bounds.y c.max_bounds.y o s⁻¹ < (1000:ℚ)⁻¹ :=
      not_lt.mpr hc.le
    unfold Cube.ray_intersect
    rw [hsp]
    simp [hc, hg, Intersect.new]
  · intro h2
    refine ⟨?_, haabb⟩
    have hle : loQ c.min_bounds.y c.max_bounds.y o (1/s)
        ≤ hiQ c.min_bounds.y c.max_bounds.y o (1/s) := min_le_max
    have hc : ¬ (1000:ℚ)⁻¹ < loQ c.min_bounds.y c.max_bounds.y o s⁻¹ := by
      simp only [← one_div]
      linarith
    have hg : hiQ c.min_bounds.y c.max_bounds.y o s⁻¹ < (1000:ℚ)⁻¹ := by
      simp only [← one_div]
      linarith
    unfold Cube.ray_intersect
    rw [hsp]
    simp [hc, hg, Intersect.empty]

theorem slabC6z (c : Cube) (o s : ℚ) (hs : s ≠ 0)
    (hpx : c.min_bounds.x < c.max_bounds.x)
    (hpy : c.min_bounds.y < c.max_bounds.y) :
    (1/1000 < loQ c.min_bounds.z c.max_bounds.z o (1/s) →
      (AABB.from_cube c).intersect (Axis.originAt Axis.z c o)
          (inverseDir (Axis.dirF Axis.z s)) = true ∧
      (c.ray_intersect (Axis.originAt Axis.z c o) (Axis.dirF Axis.z s)).is_intersecting
          = true ∧
      (c.ray_intersect (Axis.originAt Axis.z c o) (Axis.dirF Axis.z s)).distance
          = Fp.fin (loQ c.min_bounds.z c.max_bounds.z o (1/s))) ∧
    (hiQ c.min_bounds.z c.max_bounds.z o (1/s) < 0 →
      (c.ray_intersect (Axis.originAt Axis.z c o) (Axis.dirF Axis.z s)).is_intersecting
          = false ∧
      (AABB.from_cube c).intersect (Axis.originAt Axis.z c o)
          (inverseDir (Axis.dirF Axis.z s)) = true) := by
  have hx1 : c.min_bounds.x < (c.min_bounds.x + c.max_bounds.x) / 2 := by linarith
  have hx2 : (c.min_bounds.x + c.max_bounds.x) / 2 < c.max_bounds.x := by linarith
  have hy1 : c.min_bounds.y < (c.min_bounds.y + c.max_bounds.y) / 2 := by linarith
  have hy2 : (c.min_bounds.y + c.max_bounds.y) / 2 < c.max_bounds.y := by linarith
  have h10 : ¬ (1:ℚ) < 0 := by norm_num
  have hinv : inverseDir (Axis.dirF Axis.z s) = ⟨Fp.pinf, Fp.pinf, Fp.fin (1/s)⟩ := by
    simp [inverseDir, Axis.dirF, fq_eq, hs, h10]
  have horig : Axis.originAt Axis.z c o =
      ⟨Fp.fin ((c.min_bounds.x + c.max_bounds.x) / 2),
        Fp.fin ((c.min_bounds.y + c.max_bounds.y) / 2), Fp.fin o⟩ := rfl
  have haabb : (AABB.from_cube c).intersect (Axis.originAt Axis.z c o)
      (inverseDir (Axis.dirF Axis.z s)) = true := by
    rw [horig, hinv]
    exact AABB.intersect_axis_z (AABB.from_cube c) _ _ o (Fp.fin (1/s)) hx1 hx2 hy1 hy2
  have hsp : c.slabParams (Axis.originAt Axis.z c o) (Axis.dirF Axis.z s) =
      some (Fp.fin (loQ c.min_bounds.z c.max_bounds.z o (1/s)),
            Fp.fin (hiQ c.min_bounds.z c.max_bounds.z o (1/s))) := by
    rw [horig, show Axis.dirF Axis.z s = ⟨Fp.fin 0, Fp.fin 0, Fp.fin s⟩ from rfl]
    exact Cube.slabParams_axis_z c _ _ o s hs hx1 hx2 hy1 hy2
  constructor
  · intro h1
    refine ⟨haabb, ?_⟩
    have hc : (1000:ℚ)⁻¹ < loQ c.min_bounds.z c.max_bounds.z o s⁻¹ := by
      simp only [← one_div]
      linarith
    have hg : ¬ loQ c.min_bounds.z c.max_bounds.z o s⁻¹ < (1000:ℚ)⁻¹ :=
      not_lt.mpr hc.le
    unfold Cube.ray_intersect
    rw [hsp]
    simp [hc, hg, Intersect.new]
  · intro h2
    refine ⟨?_, haabb⟩
    have hle : loQ c.min_bounds.z c.max_bounds.z o (1/s)
        ≤ hiQ c.min_bounds.z c.max_bounds.z o (1/s) := min_le_max
    have hc : ¬ (1000:ℚ)⁻¹ < loQ c.min_bounds.z c.max_bounds.z o s⁻¹ := by
      simp only [← one_div]
      linarith
    have hg : hiQ c.min_bounds.z c.max_bounds.z o s⁻¹ < (1000:ℚ)⁻¹ := by
      simp only [← one_div]
      linarith
    unfold Cube.ray_intersect
    rw [hsp]
    simp [hc, hg, Intersect.empty]

/-- C6 (amended): for every non-degenerate axis-aligned box and every
coordinate axis, a ray whose origin lies outside the box beyond the `0.001`
guard (entry parameter above `1/1000`) and which points toward the box
through its exact center along that axis reports a hit in both the boolean
`AABB::intersect` slab test and `Cube::ray_intersect` (the latter with the
entry parameter as distance); but when the box lies entirely behind the ray
origin (both slab parameters negative), only `Cube::ray_intersect` reports
no hit, while `AABB::intersect` still reports a hit, because it never
examines the sign of the slab parameters. -/
theorem slab_axis_center_ray (c : Cube) (a : Axis) (o s : ℚ) (hs : s ≠ 0)
    (hpx : c.min_bounds.x < c.max_bounds.x)
    (hpy : c.min_bounds.y < c.max_bounds.y)
    (hpz : c.min_bounds.z < c.max_bounds.z) :
    (1/1000 < loQ (a.loB c) (a.hiB c) o (1/s) →
      (AABB.from_cube c).intersect (a.originAt c o) (inverseDir (a.dirF s)) = true ∧
      (c.ray_intersect (a.originAt c o) (a.dirF s)).is_intersecting = true ∧
      (c.ray_intersect (a.originAt c o) (a.dirF s)).distance
        = Fp.fin (loQ (a.loB c) (a.hiB c) o (1/s))) ∧
    (hiQ (a.loB c) (a.hiB c) o (1/s) < 0 →
      (c.ray_intersect (a.originAt c o) (a.dirF s)).is_intersecting = false ∧
      (AABB.from_cube c).intersect (a.originAt c o) (inverseDir (a.dirF s)) = true) := by
  cases a with
  | x => exact slabC6x c o s hs hpy hpz
  | y => exact slabC6y c o s hs hpx hpz
  | z => exact slabC6z c o s hs hpx hpy

/-- Unit cube used by the C6 witness and counterexample. -/
def cubeC6unit : Cube := ⟨⟨0, 0, 0⟩, ⟨1, 1, 1⟩, Material.black⟩

/-- Witness for C6 at the unit cube, driving axis `x`, origin coordinate
`-1` and driving direction `1` (entry parameter `1 > 1/1000`). -/
theorem slab_axis_center_ray_witness :
    (1 : ℚ) ≠ 0 ∧
    cubeC6unit.min_bounds.x < cubeC6unit.max_bounds.x ∧
    cubeC6unit.min_bounds.y < cubeC6unit.max_bounds.y ∧
    cubeC6unit.min_bounds.z < cubeC6unit.max_bounds.z ∧
    1/1000 < loQ (Axis.loB Axis.x cubeC6unit) (Axis.hiB Axis.x cubeC6unit) (-1) (1/1) ∧
    ((1/1000 < loQ (Axis.loB Axis.x cubeC6unit) (Axis.hiB Axis.x cubeC6unit) (-1) (1/1) →
      (AABB.from_cube cubeC6unit).intersect (Axis.originAt Axis.x cubeC6unit (-1))
          (inverseDir (Axis.dirF Axis.x 1)) = true ∧
      (cubeC6unit.ray_intersect (Axis.originAt Axis.x cubeC6unit (-1))
          (Axis.dirF Axis.x 1)).is_intersecting = true ∧
      (cubeC6unit.ray_intersect (Axis.originAt Axis.x cubeC6unit (-1))
          (Axis.dirF Axis.x 1)).distance
        = Fp.fin (loQ (Axis.loB Axis.x cubeC6unit) (Axis.hiB Axis.x cubeC6unit)
            (-1) (1/1))) ∧
     (hiQ (Axis.loB Axis.x cubeC6unit) (Axis.hiB Axis.x cubeC6unit) (-1) (1/1) < 0 →
      (cubeC6unit.ray_intersect (Axis.originAt Axis.x cubeC6unit (-1))
          (Axis.dirF Axis.x 1)).is_intersecting = false ∧
      (AABB.from_cube cubeC6unit).intersect (Axis.originAt Axis.x cubeC6unit (-1))
          (inverseDir (Axis.dirF Axis.x 1)) = true)) :=
  ⟨by norm_num, by norm_num [cubeC6unit], by norm_num [cubeC6unit],
   by norm_num [cubeC6unit],
   by norm_num [loQ, Axis.loB, Axis.hiB, cubeC6unit],
   slab_axis_center_ray cubeC6unit Axis.x (-1) 1 (by norm_num)
     (by norm_num [cubeC6unit]) (by norm_num [cubeC6unit]) (by norm_num [cubeC6unit])⟩

/-- Counterexample to C6 as stated: the unit box lies entirely behind the
axis ray from `(2, 1/2, 1/2)` along `+x` (both slab parameters are
negative), yet the boolean `AABB::intersect` slab test reports a hit,
contradicting the claim that a ray pointing away from the box reports no
hit in both tests; `Cube::ray_intersect` does report no hit. -/
theorem slab_behind_ray_counterexample :
    hiQ (Axis.loB Axis.x cubeC6unit) (Axis.hiB Axis.x cubeC6unit) 2 (1/1) < 0 ∧
    (AABB.from_cube cubeC6unit).intersect (Axis.originAt Axis.x cubeC6unit 2)
        (inverseDir (Axis.dirF Axis.x 1)) = true ∧
    (cubeC6unit.ray_intersect (Axis.originAt Axis.x cubeC6unit 2)
        (Axis.dirF Axis.x 1)).is_intersecting = false := by
  refine ⟨by norm_num [hiQ, Axis.loB, Axis.hiB, cubeC6unit], ?_, ?_⟩
  · norm_num [AABB.intersect, AABB.from_cube, inverseDir, Axis.dirF, Axis.originAt,
      cubeC6unit, fq_eq]
  · norm_num [Cube.ray_intersect, Cube.slabParams, Axis.dirF, Axis.originAt, cubeC6unit,
      fq_eq, Intersect.empty]

/-- C8: every tree returned by `BVHNode::build` on a non-empty in-range
index slice satisfies the bounds invariant: every internal node's bounds is
exactly the componentwise merge of its two children's bounds, and every
leaf node's bounds is exactly the bounding box of the cube it references
(this is the `wfTree` invariant). -/
theorem build_bounds_invariant (cubes : List Cube) (idxs : List ℕ) (t : BVHNode)
    (hne : idxs ≠ []) (hok : ∀ i ∈ idxs, i < cubes.length)
    (hbuild : BVHNode.build cubes idxs = some t) :
    wfTree cubes t := by
  obtain ⟨t', hb', hwf, -, -⟩ :=
    BVHNode.build_spec cubes idxs.length idxs le_rfl hne hok
  rw [hbuild] at hb'
  injection hb' with h
  subst h
  exact hwf

/-- One-cube scene used by the C8 and C10 witnesses. -/
def cubeW : Cube := ⟨⟨0, 0, 0⟩, ⟨1, 1, 1⟩, Material.black⟩

/-- Cube list of the C8 and C10 witnesses. -/
def cubesW : List Cube := [cubeW]

/-- Witness for C8 on the one-cube scene. -/
theorem build_bounds_invariant_witness :
    ([0] : List ℕ) ≠ [] ∧ (∀ i ∈ ([0] : List ℕ), i < cubesW.length) ∧
    BVHNode.build cubesW [0] = some (BVHNode.leaf (AABB.from_cube cubeW) 0) ∧
    wfTree cubesW (BVHNode.leaf (AABB.from_cube cubeW) 0) := by
  have hb : BVHNode.build cubesW [0] = some (BVHNode.leaf (AABB.from_cube cubeW) 0) := by
    simp [BVHNode.build, cubesW]
  exact ⟨by simp, by simp [cubesW], hb,
    build_bounds_invariant cubesW [0] _ (by simp) (by simp [cubesW]) hb⟩

/-- C10: `BVHNode::build` is total on every non-empty index slice whose
indices are in range — the recursion terminates and every index access
succeeds, so a tree is returned — while on the empty slice the indexing
that the source performs fails (modelled by `none`), so non-emptiness is a
precondition of `build`. -/
theorem build_total_on_nonempty (cubes : List Cube) (idxs : List ℕ)
    (hne : idxs ≠ []) (hok : ∀ i ∈ idxs, i < cubes.length) :
    (BVHNode.build cubes idxs).isSome = true ∧ BVHNode.build cubes [] = none := by
  obtain ⟨t, hb, -, -, -⟩ := BVHNode.build_spec cubes idxs.length idxs le_rfl hne hok
  refine ⟨by rw [hb]; rfl, by simp [BVHNode.build]⟩

/-- Witness for C10 on the one-cube scene. -/
theorem build_total_on_nonempty_witness :
    ([0] : List ℕ) ≠ [] ∧ (∀ i ∈ ([0] : List ℕ), i < cubesW.length) ∧
    ((BVHNode.build cubesW [0]).isSome = true ∧ BVHNode.build cubesW [] = none) :=
  ⟨by simp, by simp [cubesW],
    build_total_on_nonempty cubesW [0] (by simp) (by simp [cubesW])⟩

/-- C1: for a BVH built by `BVHNode::build` over a permutation of the full
index range of a non-empty cube list, and a finite rational ray with
nonzero direction components over proper boxes: `BVHNode::intersect` is
populated exactly when some cube's `Cube::ray_intersect` is populated; when
no cube is hit it returns the empty `Intersect`; and when some cube is hit
the result equals the `Cube::ray_intersect` payload of a hit cube such that
no hit cube has a strictly smaller distance (the returned distance is the
minimum over the populated cube hits). -/
theorem bvh_intersect_min_hit (cubes : List Cube) (idxs : List ℕ) (t : BVHNode)
    (o d : V3) (hdx : d.x ≠ 0) (hdy : d.y ≠ 0) (hdz : d.z ≠ 0)
    (hne : cubes ≠ [])
    (hperm : List.Perm idxs (List.range cubes.length))
    (hproper : ∀ c ∈ cubes, properBox (AABB.from_cube c))
    (hbuild : BVHNode.build cubes idxs = some t) :
    ((t.intersect cubes (V3.toF o) (V3.toF d) (V3.toF (invV d))).is_intersecting = true
        ↔ ∃ i, ∃ h : i < cubes.length,
            ((cubes[i]).ray_intersect (V3.toF o) (V3.toF d)).is_intersecting = true) ∧
    ((∀ i, (h : i < cubes.length) →
        ((cubes[i]).ray_intersect (V3.toF o) (V3.toF d)).is_intersecting = false) →
      t.intersect cubes (V3.toF o) (V3.toF d) (V3.toF (invV d)) = Intersect.empty) ∧
    ((∃ i, ∃ h : i < cubes.length,
        ((cubes[i]).ray_intersect (V3.toF o) (V3.toF d)).is_intersecting = true) →
      ∃ j, ∃ hj : j < cubes.length,
        ((cubes[j]).ray_intersect (V3.toF o) (V3.toF d)).is_intersecting = true ∧
        t.intersect cubes (V3.toF o) (V3.toF d) (V3.toF (invV d)) =
          (cubes[j]).ray_intersect (V3.toF o) (V3.toF d) ∧
        ∀ k, (hk : k < cubes.length) →
          ((cubes[k]).ray_intersect (V3.toF o) (V3.toF d)).is_intersecting = true →
          Fp.lt ((cubes[k]).ray_intersect (V3.toF o) (V3.toF d)).distance
            ((cubes[j]).ray_intersect (V3.toF o) (V3.toF d)).distance = false) := by
  have hlen : 0 < cubes.length := by
    cases cubes with
    | nil => exact absurd rfl hne
    | cons a l => simp
  have hidxne : idxs ≠ [] := by
    intro h
    rw [h] at hperm
    have h0 : List.range cubes.length = [] := hperm.symm.eq_nil
    rw [List.range_eq_nil] at h0
    omega
  have hok : ∀ i ∈ idxs, i < cubes.length := by
    intro i hi
    exact List.mem_range.mp (hperm.mem_iff.mp hi)
  obtain ⟨t', hb', hwf, hpermT, -⟩ :=
    BVHNode.build_spec cubes idxs.length idxs le_rfl hidxne hok
  rw [hbuild] at hb'
  injection hb' with heq
  rw [← heq] at hwf hpermT
  have hmemT : ∀ i, i ∈ t.treeIndices ↔ i < cubes.length := by
    intro i
    rw [(hpermT.trans hperm).mem_iff, List.mem_range]
  rcases BVHNode.intersect_spec cubes o d hdx hdy hdz hproper t hwf with
    ⟨hres, hnone⟩ | ⟨i, hiT, hres, hhit, hmin⟩
  · have hnopop : ∀ i, (h : i < cubes.length) →
        ((cubes[i]).ray_intersect (V3.toF o) (V3.toF d)).is_intersecting = false := by
      intro i hlt
      have hih : ¬ cubeHit (cubes.getD i defCube) o d := hnone i ((hmemT i).mpr hlt)
      have hchar := (Cube.ray_intersect_char (cubes.getD i defCube) o d hdx hdy hdz).1
      rw [List.getD_eq_getElem cubes defCube hlt] at hih hchar
      rw [← Bool.not_eq_true]
      exact fun hp => hih (hchar.mp hp)
    refine ⟨?_, fun _ => hres, ?_⟩
    · rw [hres]
      constructor
      · intro h
        exact absurd h (by simp [Intersect.empty])
      · rintro ⟨i, hlt, hpop⟩
        rw [hnopop i hlt] at hpop
        exact absurd hpop (by simp)
    · rintro ⟨i, hlt, hpop⟩
      rw [hnopop i hlt] at hpop
      exact absurd hpop (by simp)
  · have hlt : i < cubes.length := (hmemT i).mp hiT
    have hgetD : cubes.getD i defCube = cubes[i] :=
      List.getD_eq_getElem cubes defCube hlt
    have hchar := Cube.ray_intersect_char (cubes[i]) o d hdx hdy hdz
    rw [hgetD] at hres hhit
    have hpopi : ((cubes[i]).ray_intersect (V3.toF o) (V3.toF d)).is_intersecting
        = true := hchar.1.mpr hhit
    refine ⟨⟨fun _ => ⟨i, hlt, hpopi⟩, fun _ => by rw [hres]; exact hpopi⟩, ?_, ?_⟩
    · intro hall
      rw [hall i hlt] at hpopi
      exact absurd hpopi (by simp)
    · intro _
      refine ⟨i, hlt, hpopi, hres, ?_⟩
      intro k hltk hpopk
      have hchark := Cube.ray_intersect_char (cubes[k]) o d hdx hdy hdz
      have hhitk : cubeHit (cubes[k]) o d := hchark.1.mp hpopk
      have hk := hmin k ((hmemT k).mpr hltk)
      rw [List.getD_eq_getElem cubes defCube hltk, hgetD] at hk
      have hdd := hk hhitk
      have hdisti : ((cubes[i]).ray_intersect (V3.toF o) (V3.toF d)).distance
          = Fp.fin (cubeDist (cubes[i]) o d) := by
        rw [hchar.2.1, if_pos hhit]
      have hdistk : ((cubes[k]).ray_intersect (V3.toF o) (V3.toF d)).distance
          = Fp.fin (cubeDist (cubes[k]) o d) := by
        rw [hchark.2.1, if_pos hhitk]
      rw [hdisti, hdistk, Fp.lt_fin_fin]
      simp only [decide_eq_false_iff_not, not_lt]
      exact hdd

/-- Ray origin of the C1 witness. -/
def oC1 : V3 := ⟨-1/2, 1/4, 1/4⟩

/-- Ray direction of the C1 witness. -/
def dC1 : V3 := ⟨1, 1, 1⟩

/-- The tree `BVHNode.build cubesW [0]` returns. -/
def tC1 : BVHNode := BVHNode.leaf (AABB.from_cube cubeW) 0

/-- Witness for C1 on the one-cube scene with a hitting diagonal ray. -/
theorem bvh_intersect_min_hit_witness :
    (dC1.x ≠ 0 ∧ dC1.y ≠ 0 ∧ dC1.z ≠ 0 ∧ cubesW ≠ [] ∧
      List.Perm [0] (List.range cubesW.length) ∧
      (∀ c ∈ cubesW, properBox (AABB.from_cube c)) ∧
      BVHNode.build cubesW [0] = some tC1) ∧
    (((tC1.intersect cubesW (V3.toF oC1) (V3.toF dC1)
          (V3.toF (invV dC1))).is_intersecting = true
        ↔ ∃ i, ∃ h : i < cubesW.length,
            ((cubesW[i]).ray_intersect (V3.toF oC1) (V3.toF dC1)).is_intersecting
              = true) ∧
     ((∀ i, (h : i < cubesW.length) →
         ((cubesW[i]).ray_intersect (V3.toF oC1) (V3.toF dC1)).is_intersecting
           = false) →
       tC1.intersect cubesW (V3.toF oC1) (V3.toF dC1) (V3.toF (invV dC1))
         = Intersect.empty) ∧
     ((∃ i, ∃ h : i < cubesW.length,
         ((cubesW[i]).ray_intersect (V3.toF oC1) (V3.toF dC1)).is_intersecting
           = true) →
       ∃ j, ∃ hj : j < cubesW.length,
         ((cubesW[j]).ray_intersect (V3.toF oC1) (V3.toF dC1)).is_intersecting
           = true ∧
         tC1.intersect cubesW (V3.toF oC1) (V3.toF dC1) (V3.toF (invV dC1)) =
           (cubesW[j]).ray_intersect (V3.toF oC1) (V3.toF dC1) ∧
         ∀ k, (hk : k < cubesW.length) →
           ((cubesW[k]).ray_intersect (V3.toF oC1) (V3.toF dC1)).is_intersecting
             = true →
           Fp.lt ((cubesW[k]).ray_intersect (V3.toF oC1) (V3.toF dC1)).distance
             ((cubesW[j]).ray_intersect (V3.toF oC1) (V3.toF dC1)).distance
             = false)) := by
  have h1 : dC1.x ≠ 0 := by norm_num [dC1]
  have h2 : dC1.y ≠ 0 := by norm_num [dC1]
  have h3 : dC1.z ≠ 0 := by norm_num [dC1]
  have hne : cubesW ≠ [] := by simp [cubesW]
  have hperm : List.Perm [0] (List.range cubesW.length) := by
    rw [show cubesW.length = 1 from rfl, List.range_succ, List.range_zero]
    exact List.Perm.refl _
  have hproper : ∀ c ∈ cubesW, properBox (AABB.from_cube c) := by
    intro c hc
    rw [show cubesW = [cubeW] from rfl, List.mem_singleton] at hc
    subst hc
    norm_num [properBox, AABB.from_cube, cubeW]
  have hbuild : BVHNode.build cubesW [0] = some tC1 := by
    simp [BVHNode.build, cubesW, tC1]
  exact ⟨⟨h1, h2, h3, hne, hperm, hproper, hbuild⟩,
    bvh_intersect_min_hit cubesW [0] tC1 oC1 dC1 h1 h2 h3 hne hperm hproper hbuild⟩

/-- C2: `cast_ray` terminates (it is a total function of this development,
defined by recursion on `3 - depth`), a call with `depth > 2` returns the
procedural sky immediately, and every call equals the fuel-indexed
structural recursion `castRayFuel` with fuel `3 - depth`; in particular a
call at depth `0` is computed with fuel `3 = max_depth + 1`, so the chain
of nested recursive calls has length at most `max_depth + 1`. -/
theorem cast_ray_depth_bound (caps : Caps) (o dvec : Vec3) (bvh : BVHNode)
    (objects : List Cube) (lights : List Light) (depth : ℕ)
    (skybox : Option String) :
    (2 < depth →
      cast_ray caps o dvec bvh objects lights depth skybox
        = procedural_sky caps dvec skybox) ∧
    cast_ray caps o dvec bvh objects lights depth skybox
      = castRayFuel caps (3 - depth) o dvec bvh objects lights depth skybox ∧
    cast_ray caps o dvec bvh objects lights 0 skybox
      = castRayFuel caps 3 o dvec bvh objects lights 0 skybox := by
  refine ⟨?_, ?_, ?_⟩
  · intro hd
    rw [cast_ray, dif_pos hd]
  · exact cast_ray_eq_castRayFuel caps bvh objects lights skybox (3 - depth) depth
      le_rfl o dvec
  · exact cast_ray_eq_castRayFuel caps bvh objects lights skybox 3 0 le_rfl o dvec

/-- Witness for C2 at depth `3` on a small concrete scene. -/
theorem cast_ray_depth_bound_witness :
    (2 < 3 →
      cast_ray ratCaps (V3.toF ⟨0, 0, 0⟩) (V3.toF ⟨0, 0, 1⟩) tC1 cubesW [] 3 none
        = procedural_sky ratCaps (V3.toF ⟨0, 0, 1⟩) none) ∧
    cast_ray ratCaps (V3.toF ⟨0, 0, 0⟩) (V3.toF ⟨0, 0, 1⟩) tC1 cubesW [] 3 none
      = castRayFuel ratCaps (3 - 3) (V3.toF ⟨0, 0, 0⟩) (V3.toF ⟨0, 0, 1⟩) tC1 cubesW
          [] 3 none ∧
    cast_ray ratCaps (V3.toF ⟨0, 0, 0⟩) (V3.toF ⟨0, 0, 1⟩) tC1 cubesW [] 0 none
      = castRayFuel ratCaps 3 (V3.toF ⟨0, 0, 0⟩) (V3.toF ⟨0, 0, 1⟩) tC1 cubesW
          [] 0 none :=
  cast_ray_depth_bound ratCaps (V3.toF ⟨0, 0, 0⟩) (V3.toF ⟨0, 0, 1⟩) tC1 cubesW [] 3 none

/-- C4: per-light shading of `cast_ray`: a light whose clamped Lambertian
term is below the `0.01` threshold leaves both accumulators unchanged (the
`continue`, so no shadow test affects the result); for a light at or above
the threshold, `cast_shadow` returns the partial-shadow factor `0.7`
exactly when the shadow ray — cast from the hit point offset by `1e-4`
along the normal, toward the light — reports a populated hit strictly
closer than the light distance, and `0.0` otherwise; and the light's
diffuse and specular contributions are scaled by
`intensity * (1 - shadow_intensity)`. -/
theorem light_shadow_attenuation (caps : Caps) (bvh : BVHNode) (objects : List Cube)
    (intersect : Intersect) (view_direction normal : Vec3) (acc : Vec3 × Vec3)
    (light : Light) :
    (Fp.lt (Fp.maxF (Vec3.dot normal (Vec3.normalized caps
          (V3.toF light.position - intersect.point))) (fq 0)) (fq (1/100)) = true →
      lightStep caps bvh objects intersect view_direction normal acc light = acc) ∧
    ((bvh.intersect objects (intersect.point + intersect.normal * fq (1/10000))
          (Vec3.normalized caps (V3.toF light.position - intersect.point))
          ⟨fq 1 / (Vec3.normalized caps (V3.toF light.position - intersect.point)).x,
           fq 1 / (Vec3.normalized caps (V3.toF light.position - intersect.point)).y,
           fq 1 / (Vec3.normalized caps (V3.toF light.position - intersect.point)).z⟩
        ).is_intersecting = true ∧
      Fp.lt (bvh.intersect objects (intersect.point + intersect.normal * fq (1/10000))
          (Vec3.normalized caps (V3.toF light.position - intersect.point))
          ⟨fq 1 / (Vec3.normalized caps (V3.toF light.position - intersect.point)).x,
           fq 1 / (Vec3.normalized caps (V3.toF light.position - intersect.point)).y,
           fq 1 / (Vec3.normalized caps (V3.toF light.position - intersect.point)).z⟩
        ).distance
        (Vec3.lengthF caps (V3.toF light.position - intersect.point)) = true →
      cast_shadow caps intersect light bvh objects = 7/10) ∧
    (¬ ((bvh.intersect objects (intersect.point + intersect.normal * fq (1/10000))
          (Vec3.normalized caps (V3.toF light.position - intersect.point))
          ⟨fq 1 / (Vec3.normalized caps (V3.toF light.position - intersect.point)).x,
           fq 1 / (Vec3.normalized caps (V3.toF light.position - intersect.point)).y,
           fq 1 / (Vec3.normalized caps (V3.toF light.position - intersect.point)).z⟩
        ).is_intersecting = true ∧
      Fp.lt (bvh.intersect objects (intersect.point + intersect.normal * fq (1/10000))
          (Vec3.normalized caps (V3.toF light.position - intersect.point))
          ⟨fq 1 / (Vec3.normalized caps (V3.toF light.position - intersect.point)).x,
           fq 1 / (Vec3.normalized caps (V3.toF light.position - intersect.point)).y,
           fq 1 / (Vec3.normalized caps (V3.toF light.position - intersect.point)).z⟩
        ).distance
        (Vec3.lengthF caps (V3.toF light.position - intersect.point)) = true) →
      cast_shadow caps intersect light bvh objects = 0) ∧
    (Fp.lt (Fp.maxF (Vec3.dot normal (Vec3.normalized caps
          (V3.toF light.position - intersect.point))) (fq 0)) (fq (1/100)) = false →
      lightStep caps bvh objects intersect view_direction normal acc light =
        (acc.1 + V3.toF light.color *
            (Fp.maxF (Vec3.dot normal (Vec3.normalized caps
                (V3.toF light.position - intersect.point))) (fq 0) *
              fq (light.intensity *
                (1 - cast_shadow caps intersect light bvh objects))),
         acc.2 + V3.toF light.color *
            (caps.powf (Fp.maxF (Vec3.dot view_direction (Vec3.normalized caps
                  (reflect (-(Vec3.normalized caps
                    (V3.toF light.position - intersect.point))) normal))) (fq 0))
                (fq intersect.material.specular) *
              fq (light.intensity *
                (1 - cast_shadow caps intersect light bvh objects))))) := by
  refine ⟨?_, ?_, ?_, ?_⟩
  · intro h
    simp only [lightStep]
    rw [if_pos h]
  · rintro ⟨h1, h2⟩
    simp only [cast_shadow]
    rw [if_pos h1, if_pos h2]
  · intro hn
    by_cases h1 : (bvh.intersect objects
        (intersect.point + intersect.normal * fq (1/10000))
        (Vec3.normalized caps (V3.toF light.position - intersect.point))
        ⟨fq 1 / (Vec3.normalized caps (V3.toF light.position - intersect.point)).x,
         fq 1 / (Vec3.normalized caps (V3.toF light.position - intersect.point)).y,
         fq 1 / (Vec3.normalized caps (V3.toF light.position - intersect.point)).z⟩
      ).is_intersecting = true
    · have h2 : Fp.lt (bvh.intersect objects
          (intersect.point + intersect.normal * fq (1/10000))
          (Vec3.normalized caps (V3.toF light.position - intersect.point))
          ⟨fq 1 / (Vec3.normalized caps (V3.toF light.position - intersect.point)).x,
           fq 1 / (Vec3.normalized caps (V3.toF light.position - intersect.point)).y,
           fq 1 / (Vec3.normalized caps (V3.toF light.position - intersect.point)).z⟩
        ).distance
          (Vec3.lengthF caps (V3.toF light.position - intersect.point)) = false := by
        rw [← Bool.not_eq_true]
        exact fun hb => hn ⟨h1, hb⟩
      simp only [cast_shadow]
      rw [if_pos h1, if_neg (by rw [h2]; exact Bool.false_ne_true)]
    · have h1f : (bvh.intersect objects
          (intersect.point + intersect.normal * fq (1/10000))
          (Vec3.normalized caps (V3.toF light.position - intersect.point))
          ⟨fq 1 / (Vec3.normalized caps (V3.toF light.position - intersect.point)).x,
           fq 1 / (Vec3.normalized caps (V3.toF light.position - intersect.point)).y,
           fq 1 / (Vec3.normalized caps (V3.toF light.position - intersect.point)).z⟩
        ).is_intersecting = false := by
        rw [← Bool.not_eq_true]
        exact h1
      simp only [cast_shadow]
      rw [if_neg (by rw [h1f]; exact Bool.false_ne_true)]
  · intro h
    simp only [lightStep]
    rw [if_neg (by rw [h]; exact Bool.false_ne_true)]

/-- Light of the C4 witness, placed on the z axis. -/
def lightW : Light := ⟨⟨0, 0, 3⟩, ⟨1, 1, 1⟩, 1⟩

/-- Witness for C4: with a surface normal orthogonal to the light
direction the clamped Lambertian term is `0 < 0.01`, so the light leaves
the accumulators unchanged. -/
theorem light_shadow_attenuation_witness :
    Fp.lt (Fp.maxF (Vec3.dot ⟨fq 1, fq 0, fq 0⟩ (Vec3.normalized ratCaps
        (V3.toF lightW.position - Intersect.empty.point))) (fq 0)) (fq (1/100))
      = true ∧
    lightStep ratCaps tC1 cubesW Intersect.empty Vec3.zero ⟨fq 1, fq 0, fq 0⟩
        (Vec3.zero, Vec3.zero) lightW = (Vec3.zero, Vec3.zero) := by
  have hdiff : V3.toF lightW.position - Intersect.empty.point
      = ⟨Fp.fin 0, Fp.fin 0, Fp.fin 3⟩ := by
    norm_num [lightW, Intersect.empty, Vec3.zero, fq_eq]
  have hlen : Vec3.lengthF ratCaps (⟨Fp.fin 0, Fp.fin 0, Fp.fin 3⟩ : Vec3)
      = Fp.fin 3 := by
    unfold Vec3.lengthF
    rw [show Vec3.dot (⟨Fp.fin 0, Fp.fin 0, Fp.fin 3⟩ : Vec3)
        (⟨Fp.fin 0, Fp.fin 0, Fp.fin 3⟩ : Vec3) = Fp.fin (3 * 3) by norm_num]
    exact ratCaps_sqrt_sq 3 (by norm_num)
  have hnorm : Vec3.normalized ratCaps (⟨Fp.fin 0, Fp.fin 0, Fp.fin 3⟩ : Vec3)
      = ⟨Fp.fin 0, Fp.fin 0, Fp.fin 1⟩ := by
    unfold Vec3.normalized
    rw [hlen]
    norm_num [fq_eq]
  have h : Fp.lt (Fp.maxF (Vec3.dot ⟨fq 1, fq 0, fq 0⟩ (Vec3.normalized ratCaps
      (V3.toF lightW.position - Intersect.empty.point))) (fq 0)) (fq (1/100))
      = true := by
    rw [hdiff, hnorm]
    norm_num [fq_eq, Fp.maxF]
  exact ⟨h, (light_shadow_attenuation ratCaps tC1 cubesW Intersect.empty Vec3.zero
    ⟨fq 1, fq 0, fq 0⟩ (Vec3.zero, Vec3.zero) lightW).1 h⟩

theorem range'_split (s m e : ℕ) (h1 : s ≤ m) (h2 : m ≤ e) :
    List.range' s (m - s) ++ List.range' m (e - m) = List.range' s (e - s) := by
  have hkey := List.range'_append s (m - s) (e - m) 1
  rw [show s + 1 * (m - s) = m from by omega] at hkey
  rw [show e - m + (m - s) = e - s from by omega] at hkey
  exact hkey

theorem render_row_range_append (caps : Caps) (width : ℕ) (bvh : BVHNode)
    (objects : List Cube) (camera : Camera) (lights : List Light)
    (config : RenderConfig) (skybox : Option String) (s m e : ℕ)
    (h1 : s ≤ m) (h2 : m ≤ e) :
    render_row_range caps s m width bvh objects camera lights config skybox ++
      render_row_range caps m e width bvh objects camera lights config skybox
      = render_row_range caps s e width bvh objects camera lights config skybox := by
  unfold render_row_range
  rw [← List.flatMap_append, range'_split s m e h1 h2]

theorem bandsFrom_rows (rpt height : ℕ) :
    ∀ r t, height ≤ (t + r) * rpt →
      (bandsFrom rpt height t r).flatMap (fun b => List.range' b.1 (b.2 - b.1))
        = List.range' (Min.min (t * rpt) height)
            (height - Min.min (t * rpt) height) := by
  intro r
  induction r with
  | zero =>
    intro t hcov
    rw [Nat.add_zero] at hcov
    have h0 : bandsFrom rpt height t 0 = [] := rfl
    rw [h0, min_eq_right hcov]
    simp
  | succ r ih =>
    intro t hcov
    have hstep : bandsFrom rpt height t (r + 1)
        = if t * rpt < height then
            (t * rpt, Min.min ((t + 1) * rpt) height) :: bandsFrom rpt height (t + 1) r
          else [] := rfl
    by_cases hlt : t * rpt < height
    · have hcov' : height ≤ (t + 1 + r) * rpt := by
        rw [show (t + 1 + r) * rpt = (t + (r + 1)) * rpt from by ring]
        exact hcov
      rw [hstep, if_pos hlt]
      simp only [List.flatMap_cons]
      rw [ih (t + 1) hcov', min_eq_left hlt.le]
      refine range'_split (t * rpt) (Min.min ((t + 1) * rpt) height) height
        (le_min ?_ hlt.le) (min_le_right _ _)
      rw [show (t + 1) * rpt = t * rpt + rpt from by ring]
      exact Nat.le_add_right _ _
    · rw [hstep, if_neg hlt, min_eq_right (le_of_not_lt hlt)]
      simp

theorem bandsFrom_render (caps : Caps) (width : ℕ) (bvh : BVHNode)
    (objects : List Cube) (camera : Camera) (lights : List Light)
    (config : RenderConfig) (skybox : Option String) (rpt height : ℕ) :
    ∀ r t, height ≤ (t + r) * rpt →
      (bandsFrom rpt height t r).flatMap (fun b =>
          render_row_range caps b.1 b.2 width bvh objects camera lights config skybox)
        = render_row_range caps (Min.min (t * rpt) height) height width bvh objects
            camera lights config skybox := by
  intro r
  induction r with
  | zero =>
    intro t hcov
    rw [Nat.add_zero] at hcov
    have h0 : bandsFrom rpt height t 0 = [] := rfl
    rw [h0, min_eq_right hcov]
    simp [render_row_range]
  | succ r ih =>
    intro t hcov
    have hstep : bandsFrom rpt height t (r + 1)
        = if t * rpt < height then
            (t * rpt, Min.min ((t + 1) * rpt) height) :: bandsFrom rpt height (t + 1) r
          else [] := rfl
    by_cases hlt : t * rpt < height
    · have hcov' : height ≤ (t + 1 + r) * rpt := by
        rw [show (t + 1 + r) * rpt = (t + (r + 1)) * rpt from by ring]
        exact hcov
      rw [hstep, if_pos hlt]
      simp only [List.flatMap_cons]
      rw [ih (t + 1) hcov', min_eq_left hlt.le]
      refine render_row_range_append caps width bvh objects camera lights config skybox
        (t * rpt) (Min.min ((t + 1) * rpt) height) height (le_min ?_ hlt.le)
        (min_le_right _ _)
      rw [show (t + 1) * rpt = t * rpt + rpt from by ring]
      exact Nat.le_add_right _ _
    · rw [hstep, if_neg hlt, min_eq_right (le_of_not_lt hlt)]
      simp [render_row_range]

/-- C9: the row bands spawned by `render` — `ceil(height/num_threads)` rows
each, the end clamped to the image height, the loop breaking at the first
band starting at or past the height — are pairwise disjoint and cover every
row exactly once (their row indices concatenate to `0, …, height-1` in
order), and the concatenation of `render_row_range` over the bands is
pixel-identical to a single `render_row_range` over the whole image. -/
theorem render_bands_partition (caps : Caps) (num_threads height width : ℕ)
    (bvh : BVHNode) (objects : List Cube) (camera : Camera) (lights : List Light)
    (config : RenderConfig) (skybox : Option String) (hn : 0 < num_threads) :
    ((renderBands num_threads height).flatMap fun b => List.range' b.1 (b.2 - b.1))
        = List.range height ∧
    ((renderBands num_threads height).flatMap fun b =>
        render_row_range caps b.1 b.2 width bvh objects camera lights config skybox)
      = render_row_range caps 0 height width bvh objects camera lights config skybox := by
  have hcov : height ≤ (0 + num_threads) * rows_per_thread num_threads height := by
    rw [Nat.zero_add]
    unfold rows_per_thread
    have h1 := Nat.div_add_mod (height + num_threads - 1) num_threads
    have h2 := Nat.mod_lt (height + num_threads - 1) hn
    omega
  constructor
  · rw [renderBands, bandsFrom_rows (rows_per_thread num_threads height) height
      num_threads 0 hcov]
    rw [Nat.zero_mul, Nat.zero_min, Nat.sub_zero]
    exact (List.range_eq_range' height).symm
  · rw [renderBands, bandsFrom_render caps width bvh objects camera lights config
      skybox (rows_per_thread num_threads height) height num_threads 0 hcov]
    rw [Nat.zero_mul, Nat.zero_min]

/-- Camera of the C9 witness. -/
def camW : Camera := ⟨Vec3.zero, ⟨fq 1, fq 0, fq 0⟩, ⟨fq 0, fq 1, fq 0⟩,
  ⟨fq 0, fq 0, fq 1⟩⟩

/-- Render configuration of the C9 witness. -/
def cfgW : RenderConfig := ⟨1, 1, 1/4, 1/3⟩

/-- Witness for C9 at a 4x3 image rendered by 2 workers. -/
theorem render_bands_partition_witness :
    0 < 2 ∧
    (((renderBands 2 3).flatMap fun b => List.range' b.1 (b.2 - b.1))
        = List.range 3 ∧
     ((renderBands 2 3).flatMap fun b =>
         render_row_range ratCaps b.1 b.2 4 tC1 cubesW camW [] cfgW none)
       = render_row_range ratCaps 0 3 4 tC1 cubesW camW [] cfgW none) :=
  ⟨by norm_num,
    render_bands_partition ratCaps 2 3 4 tC1 cubesW camW [] cfgW none (by norm_num)⟩

/-- Transparent material of the C3 failing input: transparency `0.5`,
refractive index `1.5`. -/
def matC3 : Material := ⟨⟨0, 0, 0⟩, 0, 0, 0, 0, 1/2, 3/2, none, none, ⟨0, 0, 0⟩, 0⟩

/-- Cube of the C3 failing input. -/
def cubeC3 : Cube := ⟨⟨0, 0, 0⟩, ⟨4, 4, 4⟩, matC3⟩

/-- One-leaf BVH over `[cubeC3]`. -/
def bvhC3 : BVHNode := BVHNode.leaf (AABB.from_cube cubeC3) 0

theorem sqrt0C3 : ratCaps.sqrt (Fp.fin 0) = Fp.fin 0 := by
  have h := ratCaps_sqrt_sq 0 (by norm_num)
  simpa using h

theorem skyZeroC3 : skyGradient ratCaps ⟨Fp.fin 0, Fp.fin 0, Fp.fin 0⟩
    = ⟨Fp.fin (1/3), Fp.fin (7/100), Fp.fin (1/12)⟩ := by
  norm_num [skyGradient, Vec3.normalized, Vec3.lengthF, fq_eq, sqrt0C3]

theorem innerCastC3 : castRayFuel ratCaps 2 ⟨Fp.fin (40001/10000), Fp.fin (13/10), Fp.fin 2⟩
    Vec3.zero bvhC3 [cubeC3] [] 1 none
    = ⟨Fp.fin (1/3), Fp.fin (7/100), Fp.fin (1/12)⟩ := by
  norm_num [castRayFuel, BVHNode.intersect, AABB.intersect, AABB.from_cube,
    Cube.ray_intersect, Cube.slabParams, cubeC3, bvhC3, matC3, procedural_sky,
    skyZeroC3, Vec3.zero, fq_eq, Intersect.empty]

theorem hitC3 : cubeC3.ray_intersect (V3.toF ⟨1, 1, 2⟩) (V3.toF ⟨1/2, 1/20, 0⟩)
    = Intersect.new matC3 (Fp.fin 6) ⟨Fp.fin 1, Fp.fin 0, Fp.fin 0⟩
        ⟨Fp.fin 4, Fp.fin (13/10), Fp.fin 2⟩
        ((cubeC3.ray_intersect (V3.toF ⟨1, 1, 2⟩) (V3.toF ⟨1/2, 1/20, 0⟩)).u)
        ((cubeC3.ray_intersect (V3.toF ⟨1, 1, 2⟩) (V3.toF ⟨1/2, 1/20, 0⟩)).v) := by
  norm_num [Cube.ray_intersect, Cube.slabParams, cubeC3, matC3, Cube.faceNormal,
    Cube.get_uv, Intersect.new, fq_eq]

theorem refractC3 : refract ratCaps (V3.toF ⟨1/2, 1/20, 0⟩)
    ⟨Fp.fin 1, Fp.fin 0, Fp.fin 0⟩ matC3.refractive_index = Vec3.zero := by
  norm_num [refract, matC3, Fp.minF, Fp.maxF, fq_eq, Vec3.zero]

theorem originC3 : offset_origin (cubeC3.ray_intersect (V3.toF ⟨1, 1, 2⟩)
      (V3.toF ⟨1/2, 1/20, 0⟩)) Vec3.zero
    = ⟨Fp.fin (40001/10000), Fp.fin (13/10), Fp.fin 2⟩ := by
  rw [offset_origin, hitC3]
  norm_num [Intersect.new, Vec3.zero, fq_eq, ORIGIN_BIAS]

/-- C3 fails on the code: at a concrete total-internal-reflection input the
refraction branch contributes a nonzero color.  The ray from `(1,1,2)` with
direction `(1/2,1/20,0)` exits `cubeC3` at `(4,13/10,2)` with normal
`(1,0,0)`; the material's transparency `1/2` exceeds the `0.05` threshold;
`refract` undergoes total internal reflection (`k = -11/16 < 0`) and
returns the zero vector; `cast_ray` nevertheless recurses with the zero
direction and the recursive call returns the sky gradient
`(1/3, 7/100, 1/12)`, so the term `refraction_color * transparency` added
to the returned color is `(1/6, 7/200, 1/24) ≠ 0`, not the zero vector the
claim demands. -/
theorem refraction_tir_nonzero :
    (cubeC3.ray_intersect (V3.toF ⟨1, 1, 2⟩) (V3.toF ⟨1/2, 1/20, 0⟩)).is_intersecting
        = true ∧
    (cubeC3.ray_intersect (V3.toF ⟨1, 1, 2⟩) (V3.toF ⟨1/2, 1/20, 0⟩)).normal
        = ⟨Fp.fin 1, Fp.fin 0, Fp.fin 0⟩ ∧
    ((1/20 : ℚ) < cubeC3.material.transparency) ∧
    refract ratCaps (V3.toF ⟨1/2, 1/20, 0⟩)
        (cubeC3.ray_intersect (V3.toF ⟨1, 1, 2⟩) (V3.toF ⟨1/2, 1/20, 0⟩)).normal
        cubeC3.material.refractive_index = Vec3.zero ∧
    cast_ray ratCaps
        (offset_origin (cubeC3.ray_intersect (V3.toF ⟨1, 1, 2⟩) (V3.toF ⟨1/2, 1/20, 0⟩))
          Vec3.zero)
        Vec3.zero bvhC3 [cubeC3] [] 1 none * fq cubeC3.material.transparency
      = ⟨Fp.fin (1/6), Fp.fin (7/200), Fp.fin (1/24)⟩ ∧
    (⟨Fp.fin (1/6), Fp.fin (7/200), Fp.fin (1/24)⟩ : Vec3) ≠ Vec3.zero := by
  refine ⟨?_, ?_, ?_, ?_, ?_, ?_⟩
  · rw [hitC3]
    rfl
  · rw [hitC3]
    rfl
  · norm_num [cubeC3, matC3]
  · rw [hitC3]
    exact refractC3
  · rw [cast_ray_eq_castRayFuel ratCaps bvhC3 [cubeC3] [] none 2 1 (by omega),
      originC3, innerCastC3]
    norm_num [cubeC3, matC3, fq_eq]
  · simp only [Vec3.zero, fq_eq, ne_eq, Vec3.mk.injEq, not_and]
    intro h
    exact absurd h (by norm_num)
